import Mathlib

/-!
Verification of the embedded-expression template compiler in
`senza/components/taupage_auto_scaling_group.py`: the `transform` /
`yaml.dump` / `split` pipeline of `generate_user_data`.

Text is modelled as `List Char` (Python `str`).  Python values flowing
through the pipeline (nested dicts / lists / scalars) are modelled by the
`ConfigNode` inductive.  The resolver `resolve_referenced_resource` is an
external collaborator and is a parameter of the pipeline.  `json.dumps` /
`json.loads` are modelled directly after the Python standard library's
behaviour (insertion-order objects, `", "` / `": "` separators, standard
string escapes); `yaml.dump` is an external library whose behaviour is
modelled from the spec's serializer contract, see `yaml_dump` below.
-/

/-! ### Generic character-list utilities -/

/-- First index at which `pat` occurs as a contiguous sublist of `s`. -/
def findSub (pat : List Char) : List Char → Option Nat
  | [] => if pat.isEmpty then some 0 else none
  | c :: rest =>
      if pat.isPrefixOf (c :: rest) then some 0
      else (findSub pat rest).map (· + 1)

/-- Whether `pat` occurs as a contiguous sublist of `s`. -/
def hasSub (pat : List Char) (s : List Char) : Bool :=
  (findSub pat s).isSome

/-! ### The configuration-tree data model

The Python values handled by `transform` are nested dicts (insertion
ordered, string keys), lists, and the scalars `str`, `int`, `bool`,
`None`.  Floats are not modelled; no claim depends on them. -/

inductive ConfigNode where
  | str  : String → ConfigNode
  | int  : Int → ConfigNode
  | bool : Bool → ConfigNode
  | null : ConfigNode
  | map  : List (String × ConfigNode) → ConfigNode
  | seq  : List ConfigNode → ConfigNode

mutual
/-- Structural boolean equality of configuration trees. -/
def beqCN : ConfigNode → ConfigNode → Bool
  | .str a, .str b => a == b
  | .int a, .int b => a == b
  | .bool a, .bool b => a == b
  | .null, .null => true
  | .map a, .map b => beqEntries a b
  | .seq a, .seq b => beqItems a b
  | _, _ => false
def beqEntries : List (String × ConfigNode) → List (String × ConfigNode) → Bool
  | [], [] => true
  | (k, v) :: r, (k', v') :: r' => k == k' && beqCN v v' && beqEntries r r'
  | _, _ => false
def beqItems : List ConfigNode → List ConfigNode → Bool
  | [], [] => true
  | v :: r, v' :: r' => beqCN v v' && beqItems r r'
  | _, _ => false
end

mutual
theorem beqCN_iff : ∀ a b : ConfigNode, beqCN a b = true ↔ a = b
  | .str a, b => by
      cases b <;> simp [beqCN]
  | .int a, b => by
      cases b <;> simp [beqCN]
  | .bool a, b => by
      cases b <;> simp [beqCN]
  | .null, b => by
      cases b <;> simp [beqCN]
  | .map a, b => by
      cases b <;> simp [beqCN, beqEntries_iff a]
  | .seq a, b => by
      cases b <;> simp [beqCN, beqItems_iff a]
theorem beqEntries_iff : ∀ a b : List (String × ConfigNode),
    beqEntries a b = true ↔ a = b
  | [], b => by
      cases b <;> simp [beqEntries]
  | (k, v) :: r, b => by
      match b with
      | [] => simp [beqEntries]
      | (k', v') :: r' =>
          simp [beqEntries, beqCN_iff v v', beqEntries_iff r r', and_assoc]
theorem beqItems_iff : ∀ a b : List ConfigNode, beqItems a b = true ↔ a = b
  | [], b => by
      cases b <;> simp [beqItems]
  | v :: r, b => by
      match b with
      | [] => simp [beqItems]
      | v' :: r' => simp [beqItems, beqCN_iff v v', beqItems_iff r r']
end

instance : DecidableEq ConfigNode := fun a b =>
  decidable_of_iff _ (beqCN_iff a b)

/-! ### JSON serialization (`json.dumps` with default arguments)

Default separators are `", "` and `": "`; objects keep insertion order;
strings escape `"` `\` and control characters (`\b \t \n \f \r`, other
control characters as `\u00XX`).  Simplification: non-ASCII characters
are emitted raw rather than `\uXXXX`-escaped (`ensure_ascii`); this only
changes the spelling of embedded JSON for non-ASCII strings, not whether
or to what it parses back. -/

/-- Lower-case hexadecimal digit for `n < 16`. -/
def hexDig (n : Nat) : Char :=
  if n < 10 then Char.ofNat (48 + n) else Char.ofNat (87 + n)

/-- Four-digit lower-case hexadecimal rendering of `n < 0x10000`. -/
def hex4 (n : Nat) : List Char :=
  [hexDig (n / 4096 % 16), hexDig (n / 256 % 16), hexDig (n / 16 % 16),
   hexDig (n % 16)]

/-- JSON escape of a single character, as emitted by `json.dumps`. -/
def jEscChar (c : Char) : List Char :=
  if c = '"' then ['\\', '"']
  else if c = '\\' then ['\\', '\\']
  else if c = '\n' then ['\\', 'n']
  else if c = '\t' then ['\\', 't']
  else if c = '\r' then ['\\', 'r']
  else if c = Char.ofNat 8 then ['\\', 'b']
  else if c = Char.ofNat 12 then ['\\', 'f']
  else if c.toNat < 32 then '\\' :: 'u' :: hex4 c.toNat
  else [c]

/-- JSON escape of a character sequence. -/
def jEscAll : List Char → List Char
  | [] => []
  | c :: rest => jEscChar c ++ jEscAll rest

/-- A JSON string literal: quote, escaped body, quote. -/
def jStr (s : String) : List Char :=
  '"' :: (jEscAll s.data ++ ['"'])

/-- Decimal digit character for `n < 10`. -/
def decDig (n : Nat) : Char := Char.ofNat (48 + n)

/-- Decimal digits of `n`, most significant first, prepended to `acc`.
Structural on the `fuel` argument so that it evaluates in the kernel. -/
def natCharsF : Nat → Nat → List Char → List Char
  | 0, _, acc => acc
  | fuel + 1, n, acc =>
      if n < 10 then decDig n :: acc
      else natCharsF fuel (n / 10) (decDig (n % 10) :: acc)

/-- Decimal digits of a natural number. -/
def natChars (n : Nat) : List Char := natCharsF (n + 1) n []

/-- Decimal rendering of an integer (Python `repr`). -/
def intChars (i : Int) : List Char :=
  (if i < 0 then ['-'] else []) ++ natChars i.natAbs

mutual
/-- `json.dumps(node)` with default arguments, as a character list. -/
def jdChars : ConfigNode → List Char
  | .str s => jStr s
  | .int i => intChars i
  | .bool true => ['t', 'r', 'u', 'e']
  | .bool false => ['f', 'a', 'l', 's', 'e']
  | .null => ['n', 'u', 'l', 'l']
  | .map es => '\x7b' :: (jdEntries es ++ ['\x7d'])
  | .seq xs => '[' :: (jdItems xs ++ [']'])
/-- Members of a JSON object, first member unprefixed. -/
def jdEntries : List (String × ConfigNode) → List Char
  | [] => []
  | (k, v) :: rest => jStr k ++ ':' :: ' ' :: (jdChars v ++ jdEntriesSep rest)
/-- Members of a JSON object, each prefixed by the `", "` separator. -/
def jdEntriesSep : List (String × ConfigNode) → List Char
  | [] => []
  | (k, v) :: rest =>
      ',' :: ' ' :: (jStr k ++ ':' :: ' ' :: (jdChars v ++ jdEntriesSep rest))
/-- Elements of a JSON array, first element unprefixed. -/
def jdItems : List ConfigNode → List Char
  | [] => []
  | v :: rest => jdChars v ++ jdItemsSep rest
/-- Elements of a JSON array, each prefixed by the `", "` separator. -/
def jdItemsSep : List ConfigNode → List Char
  | [] => []
  | v :: rest => ',' :: ' ' :: (jdChars v ++ jdItemsSep rest)
end

/-! ### The tree transformer (`transform` inside `generate_user_data`) -/

/-- The external resolver `resolve_referenced_resource(node, region)`:
takes the mapping node and the region, returns a replacement node or
fails.  `ε` is the resolver's error type (a raised exception). -/
def Resolver (ε : Type) := ConfigNode → String → Except ε ConfigNode

/-- `is_aws_fn(name)` from the source: `name == "Ref"` or
`name.startswith("Fn::")` (keys here are always strings). -/
def is_aws_fn (name : String) : Bool :=
  name == "Ref" || ['F', 'n', ':', ':'].isPrefixOf name.data

/-- Whether a dict contains a key, Python `key in node`. -/
def hasKey (key : String) (es : List (String × ConfigNode)) : Bool :=
  es.any (fun p => p.1 == key)

/-- The placeholder text `"".join(["{{ ", json.dumps(node), " }}"])`
produced by `transform` for a deferred AWS-function node. -/
def placeholderChars (node : ConfigNode) : List Char :=
  '\x7b' :: '\x7b' :: ' ' :: (jdChars node ++ [' ', '\x7d', '\x7d'])

mutual
/-- The recursive `transform(node)` from the source.  A dict with both a
`Stack` and an `Output` key goes to the resolver; otherwise a non-empty
dict whose single key satisfies `is_aws_fn` becomes the placeholder
string; any other dict is rebuilt with transformed values; lists are
rebuilt elementwise; scalars pass through. -/
def transform (r : Resolver ε) (region : String) :
    ConfigNode → Except ε ConfigNode
  | .map es =>
      if hasKey "Stack" es && hasKey "Output" es then
        r (.map es) region
      else
        match es with
        | [] => .ok (.map [])
        | (k, v) :: rest =>
            if rest.isEmpty && is_aws_fn k then
              .ok (.str (String.mk (placeholderChars (.map ((k, v) :: rest)))))
            else
              ConfigNode.map <$> transformEntries r region ((k, v) :: rest)
  | .seq xs => ConfigNode.seq <$> transformItems r region xs
  | .str s => .ok (.str s)
  | .int i => .ok (.int i)
  | .bool b => .ok (.bool b)
  | .null => .ok .null
/-- `{key: transform(value) for key, value in node.items()}`. -/
def transformEntries (r : Resolver ε) (region : String) :
    List (String × ConfigNode) → Except ε (List (String × ConfigNode))
  | [] => .ok []
  | (k, v) :: rest => do
      let v' ← transform r region v
      let rest' ← transformEntries r region rest
      .ok ((k, v') :: rest')
/-- `[transform(subnode) for subnode in node]`. -/
def transformItems (r : Resolver ε) (region : String) :
    List ConfigNode → Except ε (List ConfigNode)
  | [] => .ok []
  | v :: rest => do
      let v' ← transform r region v
      let rest' ← transformItems r region rest
      .ok (v' :: rest')
end

/-! ### Block-text serializer (`yaml.dump(node, width=sys.maxsize,
default_flow_style=False)`)

Modelled from the spec: the serializer is delegated to a block-text
serialization library (PyYAML) whose sources are not part of this
repository; §4.2 of the spec makes its behaviour part of this system's
contract.  The model renders nested mappings/sequences in block style
with two-space indentation, quotes ambiguous scalars (in particular any
string whose leading character is a YAML indicator such as `{`, and any
string matching a reserved token or a number), uses the library's
single-quote style in which an embedded apostrophe is doubled, and —
per the spec's order-preservation contract ("order preserved through
transform and serialization; insertion order is semantically visible
in output text") — renders every mapping's entries in their insertion
order. -/

/-- ASCII decimal digit test. -/
def isDigC (c : Char) : Bool := 48 ≤ c.toNat && c.toNat ≤ 57

def allDigs : List Char → Bool
  | [] => true
  | c :: r => isDigC c && allDigs r

/-- Text that the host format would read back as an integer. -/
def intLikeC (s : List Char) : Bool :=
  match s with
  | '-' :: r => !r.isEmpty && allDigs r
  | r => !r.isEmpty && allDigs r

/-- Leading characters that force quoting of a scalar (YAML
indicators). -/
def leadInd (c : Char) : Bool :=
  c = '\x7b' || c = '\x7d' || c = '[' || c = ']' || c = '#' || c = '&' ||
  c = '*' || c = '!' || c = '|' || c = '>' || c = '\'' || c = '"' ||
  c = '%' || c = '@' || c = Char.ofNat 96 || c = ',' || c = '-' ||
  c = '?' || c = ':' || c = ' '

/-- Modelled from the spec: the serializer's deterministic
scalar-quoting rule (§4.2) — a scalar string is emitted quoted when its
content would otherwise be ambiguous.  In particular every string
starting with `{` (hence every placeholder) is quoted. -/
def needsQuoteC (s : List Char) : Bool :=
  s.isEmpty
  || leadInd (s.headD ' ')
  || (s.getLast? == some ' ') || (s.getLast? == some ':')
  || s.any (fun c => c = '\n')
  || hasSub [':', ' '] s
  || s == ['t', 'r', 'u', 'e'] || s == ['f', 'a', 'l', 's', 'e']
  || s == ['n', 'u', 'l', 'l'] || s == ['~']
  || intLikeC s

/-- Single-quote style body: each embedded apostrophe is doubled. -/
def dupApos : List Char → List Char
  | [] => []
  | c :: r => if c = '\'' then '\'' :: '\'' :: dupApos r else c :: dupApos r

/-- A single-quoted scalar. -/
def yamlQuote (s : List Char) : List Char :=
  '\'' :: (dupApos s ++ ['\''])

/-- Rendering of a scalar (or empty collection) in value position. -/
def inlineChars : ConfigNode → List Char
  | .str s => if needsQuoteC s.data then yamlQuote s.data else s.data
  | .int i => intChars i
  | .bool true => ['t', 'r', 'u', 'e']
  | .bool false => ['f', 'a', 'l', 's', 'e']
  | .null => ['n', 'u', 'l', 'l']
  | .map _ => ['\x7b', '\x7d']
  | .seq _ => ['[', ']']

/-- Rendering of a mapping key. -/
def keyChars (k : String) : List Char := inlineChars (.str k)

/-- Indentation: `ind` spaces. -/
def pad (ind : Nat) : List Char := List.replicate ind ' '

mutual
/-- Block rendering of a (sorted) mapping's entries at indent `ind`:
scalar and empty-collection values inline on the key's line, non-empty
collections on following lines. -/
def serEntries (ind : Nat) : List (String × ConfigNode) → List Char
  | [] => []
  | (k, v) :: rest =>
      serEntryVal ind (pad ind ++ keyChars k) v ++ serEntries ind rest
/-- One mapping entry's rendering, given the indented key text `pre`. -/
def serEntryVal (ind : Nat) (pre : List Char) : ConfigNode → List Char
  | .map (e :: es) => pre ++ ':' :: '\n' :: serEntries (ind + 2) (e :: es)
  | .seq (x :: xs) => pre ++ ':' :: '\n' :: serItems ind (x :: xs)
  | v => pre ++ ':' :: ' ' :: (inlineChars v ++ ['\n'])
/-- Block rendering of a sequence's elements at indent `ind`. -/
def serItems (ind : Nat) : List ConfigNode → List Char
  | [] => []
  | v :: rest => serItemVal ind v ++ serItems ind rest
/-- One sequence element's rendering. -/
def serItemVal (ind : Nat) : ConfigNode → List Char
  | .map (e :: es) => pad ind ++ '-' :: '\n' :: serEntries (ind + 2) (e :: es)
  | .seq (x :: xs) => pad ind ++ '-' :: '\n' :: serItems (ind + 2) (x :: xs)
  | v => pad ind ++ '-' :: ' ' :: (inlineChars v ++ ['\n'])
end

/-- Modelled from the spec: `yaml.dump(node, width=sys.maxsize,
default_flow_style=False)` — canonical block-structured text of a tree
(§4.2), rendering every mapping's entries in insertion order (the
spec's order-preservation contract).  The document-end marker the
library appends after a top-level scalar document is not modelled. -/
def yaml_dump (t : ConfigNode) : List Char :=
  match t with
  | .map (e :: es) => serEntries 0 (e :: es)
  | .seq (x :: xs) => serItems 0 (x :: xs)
  | v => inlineChars v ++ ['\n']

/-! ### JSON parsing (`json.loads`)

Modelled after the Python standard library: whitespace-tolerant,
standard escapes.  Simplifications: surrogate pairs in `\u` escapes are
not combined, fractional/exponent number forms are rejected rather than
parsed as floats, and duplicate object keys are kept in order rather
than collapsed dict-style; none of these arise for text produced by
`jdChars`. -/

def jWsC (c : Char) : Bool := c = ' ' || c = '\t' || c = '\n' || c = '\r'

def skipWs : List Char → List Char
  | [] => []
  | c :: rest => if jWsC c then skipWs rest else c :: rest

def hexVal (c : Char) : Option Nat :=
  if isDigC c then some (c.toNat - 48)
  else if 97 ≤ c.toNat && c.toNat ≤ 102 then some (c.toNat - 87)
  else if 65 ≤ c.toNat && c.toNat ≤ 70 then some (c.toNat - 55)
  else none

def unesc : Char → Option Char
  | 'n' => some '\n'
  | 't' => some '\t'
  | 'r' => some '\r'
  | 'b' => some (Char.ofNat 8)
  | 'f' => some (Char.ofNat 12)
  | '"' => some '"'
  | '\\' => some '\\'
  | '/' => some '/'
  | _ => none

/-- Body of a JSON string after the opening quote. -/
def parseJStrAux (acc : List Char) :
    List Char → Except String (List Char × List Char)
  | [] => .error "unterminated string"
  | '\\' :: rest =>
      match rest with
      | 'u' :: a :: b :: c :: d :: rest' =>
          match hexVal a, hexVal b, hexVal c, hexVal d with
          | some va, some vb, some vc, some vd =>
              parseJStrAux
                (Char.ofNat (((va * 16 + vb) * 16 + vc) * 16 + vd) :: acc) rest'
          | _, _, _, _ => .error "invalid unicode escape"
      | e :: rest' =>
          match unesc e with
          | some ch => parseJStrAux (ch :: acc) rest'
          | none => .error "invalid escape"
      | [] => .error "unterminated string"
  | '"' :: rest => .ok (acc.reverse, rest)
  | c :: rest => parseJStrAux (c :: acc) rest

/-- Longest leading run of decimal digits. -/
def takeDigs : List Char → List Char × List Char
  | [] => ([], [])
  | c :: rest =>
      if isDigC c then
        let p := takeDigs rest
        (c :: p.1, p.2)
      else ([], c :: rest)

/-- Numeric value of a digit run. -/
def digsVal (ds : List Char) : Nat :=
  ds.foldl (fun a c => a * 10 + (c.toNat - 48)) 0

/-- An integer literal after an optional leading minus sign. -/
def parseNumAfter (neg : Bool) (cs : List Char) :
    Except String (ConfigNode × List Char) :=
  let p := takeDigs cs
  if p.1.isEmpty then .error "invalid number"
  else .ok (.int (if neg then -(digsVal p.1 : Int) else (digsVal p.1 : Int)), p.2)

mutual
/-- A JSON value; `fuel` bounds the recursion and is structural. -/
def parseVal : Nat → List Char → Except String (ConfigNode × List Char)
  | 0, _ => .error "fuel exhausted"
  | fuel + 1, cs =>
      match skipWs cs with
      | 'n' :: 'u' :: 'l' :: 'l' :: rest => .ok (.null, rest)
      | 't' :: 'r' :: 'u' :: 'e' :: rest => .ok (.bool true, rest)
      | 'f' :: 'a' :: 'l' :: 's' :: 'e' :: rest => .ok (.bool false, rest)
      | '"' :: rest =>
          (match parseJStrAux [] rest with
           | .ok (s, rest') => .ok (.str (String.mk s), rest')
           | .error e => .error e)
      | '[' :: rest =>
          (match skipWs rest with
           | [] => .error "unexpected end of input"
           | c :: cs' =>
               if c = ']' then .ok (.seq [], cs')
               else
                 match parseElems fuel (c :: cs') with
                 | .ok p => .ok (.seq p.1, p.2)
                 | .error e => .error e)
      | '\x7b' :: rest =>
          (match skipWs rest with
           | [] => .error "unexpected end of input"
           | c :: cs' =>
               if c = '\x7d' then .ok (.map [], cs')
               else
                 match parseMembers fuel (c :: cs') with
                 | .ok p => .ok (.map p.1, p.2)
                 | .error e => .error e)
      | '-' :: rest => parseNumAfter true rest
      | c :: rest =>
          if isDigC c then parseNumAfter false (c :: rest)
          else .error "unexpected character"
      | [] => .error "unexpected end of input"
/-- Comma-separated array elements up to the closing bracket. -/
def parseElems : Nat → List Char → Except String (List ConfigNode × List Char)
  | 0, _ => .error "fuel exhausted"
  | fuel + 1, cs =>
      match parseVal fuel cs with
      | .error e => .error e
      | .ok (v, r) =>
          match skipWs r with
          | ',' :: r' =>
              (match parseElems fuel r' with
               | .ok (xs, r'') => .ok (v :: xs, r'')
               | .error e => .error e)
          | ']' :: r' => .ok ([v], r')
          | _ => .error "expected comma or bracket"
/-- Comma-separated object members up to the closing brace. -/
def parseMembers : Nat → List Char →
    Except String (List (String × ConfigNode) × List Char)
  | 0, _ => .error "fuel exhausted"
  | fuel + 1, cs =>
      match skipWs cs with
      | '"' :: rest =>
          (match parseJStrAux [] rest with
           | .error e => .error e
           | .ok (k, r) =>
               match skipWs r with
               | ':' :: r' =>
                   (match parseVal fuel r' with
                    | .error e => .error e
                    | .ok (v, r2) =>
                        match skipWs r2 with
                        | ',' :: r3 =>
                            (match parseMembers fuel r3 with
                             | .ok (ms, r4) => .ok ((String.mk k, v) :: ms, r4)
                             | .error e => .error e)
                        | '\x7d' :: r3 => .ok ([(String.mk k, v)], r3)
                        | _ => .error "expected comma or brace")
               | _ => .error "expected colon")
      | _ => .error "expected property name"
end

/-- `json.loads(text)`: a single value followed only by whitespace. -/
def jsonLoads (cs : List Char) : Except String ConfigNode :=
  match parseVal (cs.length + 1) cs with
  | .error e => .error e
  | .ok (v, rest) => if (skipWs rest).isEmpty then .ok v else .error "extra data"

/-! ### The placeholder splitter (`split` inside `generate_user_data`)

The compiled pattern is `_AWS_FN_RE = ('[{]{2} (.*?) [}]{2}')` with
`re.DOTALL`: a single-quoted literal whose content starts with a
double-brace-space opener and ends (non-greedily, hence at the earliest
closer) with a space-double-brace closer.  `finditer` yields
non-overlapping leftmost matches; a leftmost match exists exactly when
the first opener occurrence is followed by a closer occurrence. -/

/-- One element of the `parts` list built by `split`: literal text or a
decoded AWS-function object. -/
inductive SplitPart where
  | lit : List Char → SplitPart
  | expr : ConfigNode → SplitPart
deriving DecidableEq

/-- The quote-opener text `'{{ ` of `_AWS_FN_RE`. -/
def openerPat : List Char := ['\'', '\x7b', '\x7b', ' ']

/-- The closer text ` }}'` of `_AWS_FN_RE`. -/
def closerPat : List Char := [' ', '\x7d', '\x7d', '\'']

/-- The scanning loop of `split`; `fuel` is structural and exceeds the
number of matches.  Each step finds the next match (first opener, then
earliest following closer), emits the preceding literal and the decoded
group, and continues after the match; if no further match exists the
remaining text is the final literal part.  A group that is not valid
JSON propagates `json.loads`'s error. -/
def splitGo : Nat → List Char → Except String (List SplitPart)
  | 0, _ => .error "fuel exhausted"
  | fuel + 1, text =>
      match findSub openerPat text with
      | none => .ok [.lit text]
      | some i =>
          let afterOpen := text.drop (i + 4)
          match findSub closerPat afterOpen with
          | none => .ok [.lit text]
          | some j => do
              let v ← jsonLoads (afterOpen.take j)
              let rest ← splitGo fuel (afterOpen.drop (j + 4))
              .ok (.lit (text.take i) :: .expr v :: rest)

/-- `split(text)` from the source. -/
def split (text : List Char) : Except String (List SplitPart) :=
  splitGo (text.length + 1) text

/-! ### `generate_user_data` -/

/-- An error aborting the pipeline: a resolver failure raised inside
`transform`, or a `json.loads` failure raised inside `split`. -/
inductive PipeError (ε : Type) where
  | resolve : ε → PipeError ε
  | badJson : String → PipeError ε
deriving DecidableEq

/-- The pipeline's result: a single literal string, or the
`{"Fn::Join": ["", parts]}` expression. -/
inductive UserData where
  | plain : List Char → UserData
  | fnJoin : List SplitPart → UserData
deriving DecidableEq

/-- The fixed header line prepended before splitting. -/
def header : List Char := "#taupage-ami-config\n".data

/-- `generate_user_data(taupage_config, region)`: transform the tree,
serialize it behind the header line, split the text, and collapse a
single-part result to the bare string. -/
def generate_user_data (r : Resolver ε) (region : String)
    (taupage_config : ConfigNode) : Except (PipeError ε) UserData :=
  match transform r region taupage_config with
  | .error e => .error (.resolve e)
  | .ok t =>
      match split (header ++ yaml_dump t) with
      | .error m => .error (.badJson m)
      | .ok parts =>
          match parts with
          | [.lit s] => .ok (.plain s)
          | _ => .ok (.fnJoin parts)

/-! ### Facts about keys and the transformer -/

theorem hasKey_eq_any_keys (key : String) :
    ∀ es : List (String × ConfigNode),
      hasKey key es = (es.map Prod.fst).any (· == key)
  | [] => rfl
  | p :: rest => by
      simp [hasKey, List.any_cons] at *
      simp [← hasKey_eq_any_keys key rest, hasKey]

instance {α β : Type} [DecidableEq α] [DecidableEq β] :
    DecidableEq (Except α β) := fun a b =>
  match a, b with
  | .ok x, .ok y =>
      if h : x = y then isTrue (by rw [h])
      else isFalse (fun hh => h (Except.ok.inj hh))
  | .error x, .error y =>
      if h : x = y then isTrue (by rw [h])
      else isFalse (fun hh => h (Except.error.inj hh))
  | .ok _, .error _ => isFalse (fun hh => Except.noConfusion hh)
  | .error _, .ok _ => isFalse (fun hh => Except.noConfusion hh)

theorem transformEntries_keys {ε : Type} (r : Resolver ε) (region : String) :
    ∀ (es es' : List (String × ConfigNode)),
      transformEntries r region es = .ok es' →
      es'.map Prod.fst = es.map Prod.fst := by
  intro es
  induction es with
  | nil => intro es' h; simp [transformEntries] at h; simp [← h]
  | cons p rest ih =>
      intro es' h
      obtain ⟨k, v⟩ := p
      simp only [transformEntries] at h
      cases hv : transform r region v with
      | error e => rw [hv] at h; simp [Bind.bind, Except.bind] at h
      | ok v' =>
          rw [hv] at h
          cases hrest : transformEntries r region rest with
          | error e => rw [hrest] at h; simp [Bind.bind, Except.bind] at h
          | ok rest' =>
              rw [hrest] at h
              simp [Bind.bind, Except.bind] at h
              rw [← h]
              simp [ih rest' hrest]

/-! ### Determinism (claim C10) -/

/-- Claim C10: the pipeline is deterministic and performs no input
besides the resolver calls — two runs of `generate_user_data` on the
same tree and region, with resolvers that agree on every argument,
produce equal results. -/
theorem generate_user_data_extensional {ε : Type} (r₁ r₂ : Resolver ε)
    (region : String) (t : ConfigNode)
    (h : ∀ n reg, r₁ n reg = r₂ n reg) :
    generate_user_data r₁ region t = generate_user_data r₂ region t := by
  have hr : r₁ = r₂ := funext fun n => funext fun reg => h n reg
  rw [hr]

/-- Witness for C10 at a concrete tree, region and resolver pair. -/
theorem generate_user_data_extensional_witness :
    generate_user_data (ε := String) (fun _ _ => .ok .null) "eu-west-1"
        (.map [("a", .str "x")]) =
      generate_user_data (fun _ _ => .ok .null) "eu-west-1"
        (.map [("a", .str "x")]) :=
  generate_user_data_extensional _ _ _ _ (fun _ _ => rfl)

/-! ### Lookup recognition (claim C5) -/

/-- Claim C5 (amended): a mapping visited by `transform` is passed whole
to the resolver (and replaced by its result) exactly when it contains
both a `Stack` entry and an `Output` entry — regardless of how many
other entries it has or of the entry values' types; any other mapping
becomes a placeholder (when its single key is an AWS-function name) or
is rebuilt entrywise. -/
theorem transform_resolver_trigger {ε : Type} (r : Resolver ε) (region : String)
    (es : List (String × ConfigNode)) :
    ((hasKey "Stack" es && hasKey "Output" es) = true →
        transform r region (.map es) = r (.map es) region) ∧
    ((hasKey "Stack" es && hasKey "Output" es) = false → es = [] →
        transform r region (.map es) = .ok (.map [])) ∧
    (∀ k v rest, (hasKey "Stack" es && hasKey "Output" es) = false →
        es = (k, v) :: rest → (rest.isEmpty && is_aws_fn k) = true →
        transform r region (.map es) =
          .ok (.str (String.mk (placeholderChars (.map es))))) ∧
    (∀ k v rest, (hasKey "Stack" es && hasKey "Output" es) = false →
        es = (k, v) :: rest → (rest.isEmpty && is_aws_fn k) = false →
        transform r region (.map es) =
          ConfigNode.map <$> transformEntries r region es) := by
  refine ⟨fun h => ?_, fun h he => ?_, fun k v rest h he hd => ?_,
         fun k v rest h he hd => ?_⟩
  · simp only [transform.eq_def]
    rw [if_pos h]
  · subst he
    simp [transform, h]
  · subst he
    simp [transform, h, hd]
  · subst he
    simp [transform, h, hd]

/-- Witness for C5: a concrete triggering mapping resolved whole. -/
theorem transform_resolver_trigger_witness :
    transform (ε := String) (fun _ _ => .ok (.str "M")) "eu-west-1"
        (.map [("Stack", .str "s"), ("Output", .str "o"), ("Extra", .str "e")]) =
      .ok (.str "M") :=
  (transform_resolver_trigger _ _ _).1 (by decide)

/-- Claim C5 counterexample: a three-entry mapping containing `Stack`
and `Output` keys — not "exactly the two entries", as the claim
requires for resolution — is nevertheless passed to the resolver and
replaced by its result instead of being rebuilt as plain data. -/
theorem transform_trigger_extra_key_counterexample :
    transform (ε := String) (fun _ _ => .ok (.str "RESOLVED")) "eu-west-1"
        (.map [("Stack", .str "s"), ("Output", .str "o"), ("Extra", .str "e")]) =
      .ok (.str "RESOLVED") ∧
    (ConfigNode.str "RESOLVED" : ConfigNode) ≠
      .map [("Stack", .str "s"), ("Output", .str "o"), ("Extra", .str "e")] := by
  exact ⟨rfl, by decide⟩

/-! ### Resolver failure propagation (claim C9) -/

/-- Whether a call failed (Python: the call raised). -/
def isErr {ε α : Type} : Except ε α → Bool
  | .error _ => true
  | .ok _ => false

mutual
/-- Whether the transformer's walk will pass to the resolver some
sub-mapping on which the resolver fails.  The walk visits exactly the
`Stack`-and-`Output` mappings not nested inside a deferred AWS-function
node (it never enters those); the resolver may well succeed on other
lookups of the same tree. -/
def hasFailingLookup {ε : Type} (r : Resolver ε) (region : String) :
    ConfigNode → Bool
  | .map es =>
      if hasKey "Stack" es && hasKey "Output" es then
        isErr (r (.map es) region)
      else
        match es with
        | [] => false
        | (k, _) :: rest =>
            if rest.isEmpty && is_aws_fn k then false
            else hasFailingLookupEntries r region es
  | .seq xs => hasFailingLookupItems r region xs
  | .str _ => false
  | .int _ => false
  | .bool _ => false
  | .null => false
def hasFailingLookupEntries {ε : Type} (r : Resolver ε) (region : String) :
    List (String × ConfigNode) → Bool
  | [] => false
  | (_, v) :: rest =>
      hasFailingLookup r region v || hasFailingLookupEntries r region rest
def hasFailingLookupItems {ε : Type} (r : Resolver ε) (region : String) :
    List ConfigNode → Bool
  | [] => false
  | v :: rest =>
      hasFailingLookup r region v || hasFailingLookupItems r region rest
end

mutual
theorem transform_err_of_failing {ε : Type} (r : Resolver ε) (region : String) :
    ∀ t : ConfigNode,
      (hasFailingLookup r region t = true →
        ∃ (ls : List (String × ConfigNode)) (e : ε),
          (hasKey "Stack" ls && hasKey "Output" ls) = true ∧
          r (.map ls) region = .error e ∧
          transform r region t = .error e) ∧
      (hasFailingLookup r region t = false →
        ∃ t', transform r region t = .ok t')
  | .str s => by
      refine ⟨fun h => ?_, fun _ => ⟨.str s, by simp [transform]⟩⟩
      simp [hasFailingLookup] at h
  | .int i => by
      refine ⟨fun h => ?_, fun _ => ⟨.int i, by simp [transform]⟩⟩
      simp [hasFailingLookup] at h
  | .bool b => by
      refine ⟨fun h => ?_, fun _ => ⟨.bool b, by simp [transform]⟩⟩
      simp [hasFailingLookup] at h
  | .null => by
      refine ⟨fun h => ?_, fun _ => ⟨.null, by simp [transform]⟩⟩
      simp [hasFailingLookup] at h
  | .map es => by
      by_cases htr : (hasKey "Stack" es && hasKey "Output" es) = true
      · refine ⟨fun h => ?_, fun hfalse => ?_⟩
        · have hh : isErr (r (.map es) region) = true := by
            simpa [hasFailingLookup, htr] using h
          cases hr : r (.map es) region with
          | ok n => rw [hr] at hh; exact absurd hh (by simp [isErr])
          | error e =>
              refine ⟨es, e, htr, hr, ?_⟩
              simp only [transform.eq_def]
              rw [if_pos htr]
              exact hr
        · have hh : isErr (r (.map es) region) = false := by
            simpa [hasFailingLookup, htr] using hfalse
          cases hr : r (.map es) region with
          | error e => rw [hr] at hh; exact absurd hh (by simp [isErr])
          | ok n =>
              refine ⟨n, ?_⟩
              simp only [transform.eq_def]
              rw [if_pos htr]
              exact hr
      · have htr' : (hasKey "Stack" es && hasKey "Output" es) = false :=
          Bool.not_eq_true _ ▸ htr
        match es with
        | [] =>
            refine ⟨fun hfalse => ?_, fun _ => ⟨.map [], by simp [transform, htr']⟩⟩
            simp [hasFailingLookup, htr'] at hfalse
        | (k, v) :: rest =>
            by_cases hdef : (rest.isEmpty && is_aws_fn k) = true
            · refine ⟨fun hfalse => ?_,
                fun _ => ⟨.str (String.mk (placeholderChars
                  (.map ((k, v) :: rest)))), by simp [transform, htr', hdef]⟩⟩
              simp [hasFailingLookup, htr', hdef] at hfalse
            · have hdef' : (rest.isEmpty && is_aws_fn k) = false :=
                Bool.not_eq_true _ ▸ hdef
              have hent :=
                transformEntries_err_of_failing r region ((k, v) :: rest)
              refine ⟨fun hl => ?_, fun hl => ?_⟩
              · have hl' : hasFailingLookupEntries r region ((k, v) :: rest)
                    = true := by
                  simpa [hasFailingLookup, htr', hdef'] using hl
                obtain ⟨ls, e, hls, hre, heq⟩ := hent.1 hl'
                exact ⟨ls, e, hls, hre,
                  by simp [transform, htr', hdef', heq, Except.map]⟩
              · have hl' : hasFailingLookupEntries r region ((k, v) :: rest)
                    = false := by
                  simpa [hasFailingLookup, htr', hdef'] using hl
                obtain ⟨es', hes'⟩ := hent.2 hl'
                exact ⟨.map es',
                  by simp [transform, htr', hdef', hes', Except.map]⟩
  | .seq xs => by
      have hits := transformItems_err_of_failing r region xs
      refine ⟨fun hl => ?_, fun hl => ?_⟩
      · have hl' : hasFailingLookupItems r region xs = true := by
          simpa [hasFailingLookup] using hl
        obtain ⟨ls, e, hls, hre, heq⟩ := hits.1 hl'
        exact ⟨ls, e, hls, hre, by simp [transform, heq, Except.map]⟩
      · have hl' : hasFailingLookupItems r region xs = false := by
          simpa [hasFailingLookup] using hl
        obtain ⟨xs', hxs'⟩ := hits.2 hl'
        exact ⟨.seq xs', by simp [transform, hxs', Except.map]⟩
theorem transformEntries_err_of_failing {ε : Type} (r : Resolver ε)
    (region : String) :
    ∀ es : List (String × ConfigNode),
      (hasFailingLookupEntries r region es = true →
        ∃ (ls : List (String × ConfigNode)) (e : ε),
          (hasKey "Stack" ls && hasKey "Output" ls) = true ∧
          r (.map ls) region = .error e ∧
          transformEntries r region es = .error e) ∧
      (hasFailingLookupEntries r region es = false →
        ∃ es', transformEntries r region es = .ok es')
  | [] => by
      refine ⟨fun h => ?_, fun _ => ⟨[], by simp [transformEntries]⟩⟩
      simp [hasFailingLookupEntries] at h
  | (k, v) :: rest => by
      have hv := transform_err_of_failing r region v
      have hrest := transformEntries_err_of_failing r region rest
      refine ⟨fun hl => ?_, fun hl => ?_⟩
      · rw [hasFailingLookupEntries, Bool.or_eq_true] at hl
        cases hvl : hasFailingLookup r region v with
        | true =>
            obtain ⟨ls, e, hls, hre, heq⟩ := hv.1 hvl
            exact ⟨ls, e, hls, hre,
              by simp [transformEntries, heq, Bind.bind, Except.bind]⟩
        | false =>
            obtain ⟨v', hv'⟩ := hv.2 hvl
            have hrl : hasFailingLookupEntries r region rest = true := by
              cases hl with
              | inl h => rw [h] at hvl; cases hvl
              | inr h => exact h
            obtain ⟨ls, e, hls, hre, heq⟩ := hrest.1 hrl
            exact ⟨ls, e, hls, hre,
              by simp [transformEntries, hv', heq, Bind.bind, Except.bind]⟩
      · rw [hasFailingLookupEntries, Bool.or_eq_false_iff] at hl
        obtain ⟨v', hv'⟩ := hv.2 hl.1
        obtain ⟨rest', hrest'⟩ := hrest.2 hl.2
        exact ⟨(k, v') :: rest',
          by simp [transformEntries, hv', hrest', Bind.bind, Except.bind]⟩
theorem transformItems_err_of_failing {ε : Type} (r : Resolver ε)
    (region : String) :
    ∀ xs : List ConfigNode,
      (hasFailingLookupItems r region xs = true →
        ∃ (ls : List (String × ConfigNode)) (e : ε),
          (hasKey "Stack" ls && hasKey "Output" ls) = true ∧
          r (.map ls) region = .error e ∧
          transformItems r region xs = .error e) ∧
      (hasFailingLookupItems r region xs = false →
        ∃ xs', transformItems r region xs = .ok xs')
  | [] => by
      refine ⟨fun h => ?_, fun _ => ⟨[], by simp [transformItems]⟩⟩
      simp [hasFailingLookupItems] at h
  | v :: rest => by
      have hv := transform_err_of_failing r region v
      have hrest := transformItems_err_of_failing r region rest
      refine ⟨fun hl => ?_, fun hl => ?_⟩
      · rw [hasFailingLookupItems, Bool.or_eq_true] at hl
        cases hvl : hasFailingLookup r region v with
        | true =>
            obtain ⟨ls, e, hls, hre, heq⟩ := hv.1 hvl
            exact ⟨ls, e, hls, hre,
              by simp [transformItems, heq, Bind.bind, Except.bind]⟩
        | false =>
            obtain ⟨v', hv'⟩ := hv.2 hvl
            have hrl : hasFailingLookupItems r region rest = true := by
              cases hl with
              | inl h => rw [h] at hvl; cases hvl
              | inr h => exact h
            obtain ⟨ls, e, hls, hre, heq⟩ := hrest.1 hrl
            exact ⟨ls, e, hls, hre,
              by simp [transformItems, hv', heq, Bind.bind, Except.bind]⟩
      · rw [hasFailingLookupItems, Bool.or_eq_false_iff] at hl
        obtain ⟨v', hv'⟩ := hv.2 hl.1
        obtain ⟨rest', hrest'⟩ := hrest.2 hl.2
        exact ⟨v' :: rest',
          by simp [transformItems, hv', hrest', Bind.bind, Except.bind]⟩
end

/-- Claim C9: if the resolver fails on any lookup mapping the
transformer's walk reaches — whatever it does on the tree's other
lookups — the whole pipeline fails with a resolver error actually
returned for such a lookup mapping, and produces no output. -/
theorem generate_user_data_resolver_failure {ε : Type} (r : Resolver ε)
    (region : String) (t : ConfigNode)
    (h : hasFailingLookup r region t = true) :
    ∃ (ls : List (String × ConfigNode)) (e : ε),
      (hasKey "Stack" ls && hasKey "Output" ls) = true ∧
      r (.map ls) region = .error e ∧
      generate_user_data r region t = .error (.resolve e) := by
  obtain ⟨ls, e, h1, h2, h3⟩ := (transform_err_of_failing r region t).1 h
  exact ⟨ls, e, h1, h2, by simp [generate_user_data, h3]⟩

/-- Witness for C9: a tree with two lookup nodes and a resolver that
succeeds on the first (`Stack: A`) but fails on the second
(`Stack: B`): the pipeline fails with the second lookup's error and no
partial output. -/
theorem generate_user_data_resolver_failure_witness :
    hasFailingLookup
      (fun n _ =>
        if n = ConfigNode.map [("Stack", ConfigNode.str "A"),
            ("Output", ConfigNode.str "o")]
        then Except.ok (ConfigNode.str "resolved-A")
        else Except.error "stack B not found" : Resolver String)
      "eu-west-1"
      (ConfigNode.map
        [("x", ConfigNode.map [("Stack", ConfigNode.str "A"),
            ("Output", ConfigNode.str "o")]),
         ("y", ConfigNode.map [("Stack", ConfigNode.str "B"),
            ("Output", ConfigNode.str "o")])]) = true ∧
    ∃ (ls : List (String × ConfigNode)) (e : String),
      (hasKey "Stack" ls && hasKey "Output" ls) = true ∧
      (fun n _ =>
        if n = ConfigNode.map [("Stack", ConfigNode.str "A"),
            ("Output", ConfigNode.str "o")]
        then Except.ok (ConfigNode.str "resolved-A")
        else Except.error "stack B not found" : Resolver String)
        (.map ls) "eu-west-1" = .error e ∧
      generate_user_data
        (fun n _ =>
          if n = ConfigNode.map [("Stack", ConfigNode.str "A"),
              ("Output", ConfigNode.str "o")]
          then Except.ok (ConfigNode.str "resolved-A")
          else Except.error "stack B not found" : Resolver String)
        "eu-west-1"
        (ConfigNode.map
          [("x", ConfigNode.map [("Stack", ConfigNode.str "A"),
              ("Output", ConfigNode.str "o")]),
           ("y", ConfigNode.map [("Stack", ConfigNode.str "B"),
              ("Output", ConfigNode.str "o")])]) = .error (.resolve e) :=
  ⟨by decide,
   generate_user_data_resolver_failure
     (fun n _ =>
       if n = ConfigNode.map [("Stack", ConfigNode.str "A"),
           ("Output", ConfigNode.str "o")]
       then Except.ok (ConfigNode.str "resolved-A")
       else Except.error "stack B not found")
     "eu-west-1"
     (ConfigNode.map
       [("x", ConfigNode.map [("Stack", ConfigNode.str "A"),
           ("Output", ConfigNode.str "o")]),
        ("y", ConfigNode.map [("Stack", ConfigNode.str "B"),
           ("Output", ConfigNode.str "o")])])
     (by decide)⟩

/-! ### Lookup elimination (claim C2) -/

mutual
/-- Whether a `Stack`-and-`Output` mapping (the ResourceLookupNode
shape) occurs anywhere in a tree, including inside the values of
deferred AWS-function nodes. -/
def containsLookup : ConfigNode → Bool
  | .map es =>
      (hasKey "Stack" es && hasKey "Output" es) || containsLookupEntries es
  | .seq xs => containsLookupItems xs
  | .str _ => false
  | .int _ => false
  | .bool _ => false
  | .null => false
def containsLookupEntries : List (String × ConfigNode) → Bool
  | [] => false
  | (_, v) :: rest => containsLookup v || containsLookupEntries rest
def containsLookupItems : List ConfigNode → Bool
  | [] => false
  | v :: rest => containsLookup v || containsLookupItems rest
end

mutual
theorem transform_no_lookup_aux {ε : Type} (r : Resolver ε) (region : String)
    (hr : ∀ n reg t', r n reg = .ok t' → containsLookup t' = false) :
    ∀ t t' : ConfigNode, transform r region t = .ok t' →
      containsLookup t' = false
  | .str s, t', h => by
      simp [transform] at h; simp [← h, containsLookup]
  | .int i, t', h => by
      simp [transform] at h; simp [← h, containsLookup]
  | .bool b, t', h => by
      simp [transform] at h; simp [← h, containsLookup]
  | .null, t', h => by
      simp [transform] at h; simp [← h, containsLookup]
  | .map es, t', h => by
      by_cases htr : (hasKey "Stack" es && hasKey "Output" es) = true
      · simp only [transform.eq_def] at h
        rw [if_pos htr] at h
        exact hr _ _ _ h
      · have htr' : (hasKey "Stack" es && hasKey "Output" es) = false :=
          Bool.not_eq_true _ ▸ htr
        match es with
        | [] =>
            simp [transform, htr'] at h
            simp [← h, containsLookup, hasKey, containsLookupEntries]
        | (k, v) :: rest =>
            by_cases hdef : (rest.isEmpty && is_aws_fn k) = true
            · simp [transform, htr', hdef] at h
              simp [← h, containsLookup]
            · have hdef' : (rest.isEmpty && is_aws_fn k) = false :=
                Bool.not_eq_true _ ▸ hdef
              simp only [transform, htr', hdef', Bool.false_eq_true, if_false,
                Except.map] at h
              cases hes : transformEntries r region ((k, v) :: rest) with
              | error e => rw [hes] at h; simp at h
              | ok es' =>
                  rw [hes] at h
                  simp at h
                  have hkeys := transformEntries_keys r region _ _ hes
                  have hcl :=
                    transformEntries_no_lookup_aux r region hr _ _ hes
                  rw [← h]
                  simp only [containsLookup]
                  rw [hasKey_eq_any_keys, hasKey_eq_any_keys, hkeys]
                  rw [← hasKey_eq_any_keys, ← hasKey_eq_any_keys, htr']
                  simp [hcl]
  | .seq xs, t', h => by
      simp only [transform, Except.map] at h
      cases hxs : transformItems r region xs with
      | error e => rw [hxs] at h; simp at h
      | ok xs' =>
          rw [hxs] at h
          simp at h
          have := transformItems_no_lookup_aux r region hr _ _ hxs
          rw [← h]
          simpa [containsLookup] using this
theorem transformEntries_no_lookup_aux {ε : Type} (r : Resolver ε)
    (region : String)
    (hr : ∀ n reg t', r n reg = .ok t' → containsLookup t' = false) :
    ∀ (es es' : List (String × ConfigNode)),
      transformEntries r region es = .ok es' →
      containsLookupEntries es' = false
  | [], es', h => by
      simp [transformEntries] at h; subst h; rfl
  | (k, v) :: rest, es', h => by
      simp only [transformEntries, Bind.bind, Except.bind] at h
      cases hv : transform r region v with
      | error e => rw [hv] at h; simp at h
      | ok v' =>
          rw [hv] at h
          cases hrest : transformEntries r region rest with
          | error e => rw [hrest] at h; simp at h
          | ok rest' =>
              rw [hrest] at h
              simp at h
              rw [← h]
              simp only [containsLookupEntries]
              simp [transform_no_lookup_aux r region hr _ _ hv,
                transformEntries_no_lookup_aux r region hr _ _ hrest]
theorem transformItems_no_lookup_aux {ε : Type} (r : Resolver ε)
    (region : String)
    (hr : ∀ n reg t', r n reg = .ok t' → containsLookup t' = false) :
    ∀ (xs xs' : List ConfigNode),
      transformItems r region xs = .ok xs' →
      containsLookupItems xs' = false
  | [], xs', h => by
      simp [transformItems] at h; subst h; rfl
  | v :: rest, xs', h => by
      simp only [transformItems, Bind.bind, Except.bind] at h
      cases hv : transform r region v with
      | error e => rw [hv] at h; simp at h
      | ok v' =>
          rw [hv] at h
          cases hrest : transformItems r region rest with
          | error e => rw [hrest] at h; simp at h
          | ok rest' =>
              rw [hrest] at h
              simp at h
              rw [← h]
              simp only [containsLookupItems]
              simp [transform_no_lookup_aux r region hr _ _ hv,
                transformItems_no_lookup_aux r region hr _ _ hrest]
end

/-- Claim C2 (amended): before serialization the transformed tree
contains no ResourceLookupNode, provided the resolver's replacement
values are themselves lookup-free — every reachable lookup mapping is
replaced by the resolver's result; lookup mappings nested inside a
deferred expression's value do not survive as tree nodes (the whole
deferred node becomes a placeholder string), but they do reappear
verbatim inside the decoded expression objects of the final output, as
the counterexample shows. -/
theorem transform_eliminates_lookups {ε : Type} (r : Resolver ε)
    (region : String) (t t' : ConfigNode)
    (hr : ∀ n reg t', r n reg = .ok t' → containsLookup t' = false)
    (h : transform r region t = .ok t') :
    containsLookup t' = false :=
  transform_no_lookup_aux r region hr t t' h

/-- Witness for C2 at a concrete lookup node and resolver. -/
theorem transform_eliminates_lookups_witness :
    containsLookup (.map [("cfg", .str "vpc-123")]) = false :=
  transform_eliminates_lookups (ε := String) (fun _ _ => .ok (.str "vpc-123"))
    "eu-west-1" (.map [("cfg", .map [("Stack", .str "core"),
                                     ("Output", .str "VpcId")])])
    (.map [("cfg", .str "vpc-123")])
    (fun _ _ t' h => by cases h; decide) (by decide)

/-- Claim C2 counterexample: a lookup mapping nested inside a deferred
AWS-function node's value is not resolved and reappears, `Stack` and
`Output` entries intact, inside the expression object of the final
output — the output does contain a ResourceLookupNode. -/
theorem lookup_survives_in_deferred_counterexample :
    generate_user_data (ε := String) (fun _ _ => .ok .null) "eu-west-1"
        (.map [("Fn::Sub", .map [("Stack", .str "s"), ("Output", .str "o")])]) =
      .ok (.fnJoin [.lit header,
        .expr (.map [("Fn::Sub",
          .map [("Stack", .str "s"), ("Output", .str "o")])]),
        .lit ['\n']]) ∧
    containsLookup
        (.map [("Fn::Sub",
          .map [("Stack", .str "s"), ("Output", .str "o")])]) = true := by
  exact ⟨by decide, by decide⟩

/-! ### Key order through the pipeline (claim C3) -/

/-- `transform` rebuilds a mapping's entries in place: same keys in the
same order, each value transformed where it stands. -/
theorem transformEntries_forall2 {ε : Type} (r : Resolver ε) (region : String) :
    ∀ (es es' : List (String × ConfigNode)),
      transformEntries r region es = .ok es' →
      List.Forall₂ (fun p q => p.1 = q.1 ∧ transform r region p.2 = .ok q.2) es es'
  | [], es', h => by
      simp only [transformEntries] at h
      injection h with h
      rw [← h]
      exact List.Forall₂.nil
  | (k, v) :: rest, es', h => by
      rw [transformEntries] at h
      cases hv : transform r region v with
      | error e => simp [hv, Bind.bind, Except.bind] at h
      | ok v' =>
          cases hrest : transformEntries r region rest with
          | error e => simp [hv, hrest, Bind.bind, Except.bind] at h
          | ok rest' =>
              simp only [hv, hrest, Bind.bind, Except.bind] at h
              injection h with h
              rw [← h]
              exact List.Forall₂.cons ⟨rfl, hv⟩
                (transformEntries_forall2 r region rest rest' hrest)

/-- `transform` rebuilds a sequence's elements in place, in order. -/
theorem transformItems_forall2 {ε : Type} (r : Resolver ε) (region : String) :
    ∀ (xs xs' : List ConfigNode),
      transformItems r region xs = .ok xs' →
      List.Forall₂ (fun a b => transform r region a = .ok b) xs xs'
  | [], xs', h => by
      simp only [transformItems] at h
      injection h with h
      rw [← h]
      exact List.Forall₂.nil
  | v :: rest, xs', h => by
      rw [transformItems] at h
      cases hv : transform r region v with
      | error e => simp [hv, Bind.bind, Except.bind] at h
      | ok v' =>
          cases hrest : transformItems r region rest with
          | error e => simp [hv, hrest, Bind.bind, Except.bind] at h
          | ok rest' =>
              simp only [hv, hrest, Bind.bind, Except.bind] at h
              injection h with h
              rw [← h]
              exact List.Forall₂.cons hv (transformItems_forall2 r region rest rest' hrest)

/-- The serializer renders a mapping's entries as the in-order
concatenation of one rendering per entry. -/
theorem serEntries_in_order : ∀ (ind : Nat) (es : List (String × ConfigNode)),
    serEntries ind es =
      (es.map (fun p => serEntryVal ind (pad ind ++ keyChars p.1) p.2)).flatten
  | _, [] => rfl
  | ind, (k, v) :: rest => by
      rw [serEntries, serEntries_in_order ind rest]
      simp [List.map, List.flatten]

/-- The serializer renders a sequence's elements as the in-order
concatenation of one rendering per element. -/
theorem serItems_in_order : ∀ (ind : Nat) (xs : List ConfigNode),
    serItems ind xs = (xs.map (serItemVal ind)).flatten
  | _, [] => rfl
  | ind, v :: rest => by
      rw [serItems, serItems_in_order ind rest]
      simp [List.map, List.flatten]

/-- Claim C3: order is preserved end-to-end — `transform` rebuilds
every mapping entrywise (same keys, same order, values transformed in
place) and every sequence elementwise in order, and the serializer
renders a mapping's entries (and a sequence's elements) as the
in-order concatenation of one rendering per entry, so the serialized
text lists each mapping's keys in insertion order. -/
theorem mapping_order_through_pipeline :
    (∀ {ε : Type} (r : Resolver ε) (region : String)
        (es es' : List (String × ConfigNode)),
        transformEntries r region es = .ok es' →
        List.Forall₂ (fun p q => p.1 = q.1 ∧ transform r region p.2 = .ok q.2) es es') ∧
    (∀ {ε : Type} (r : Resolver ε) (region : String)
        (xs xs' : List ConfigNode),
        transformItems r region xs = .ok xs' →
        List.Forall₂ (fun a b => transform r region a = .ok b) xs xs') ∧
    (∀ (ind : Nat) (es : List (String × ConfigNode)),
        serEntries ind es =
          (es.map (fun p => serEntryVal ind (pad ind ++ keyChars p.1) p.2)).flatten) ∧
    (∀ (ind : Nat) (xs : List ConfigNode),
        serItems ind xs = (xs.map (serItemVal ind)).flatten) ∧
    (∀ (e : String × ConfigNode) (es : List (String × ConfigNode)),
        yaml_dump (.map (e :: es)) = serEntries 0 (e :: es)) :=
  ⟨fun r region es es' h => transformEntries_forall2 r region es es' h,
   fun r region xs xs' h => transformItems_forall2 r region xs xs' h,
   serEntries_in_order,
   serItems_in_order,
   fun _ _ => rfl⟩

/-- Witness for C3: a two-entry mapping inserted `b` before `a` keeps
that order through `transform`, and the pipeline prints `b: x` before
`a: y`. -/
theorem mapping_order_through_pipeline_witness :
    List.Forall₂ (fun (p q : String × ConfigNode) => p.1 = q.1 ∧
        transform (fun _ _ => Except.ok ConfigNode.null : Resolver String)
          "eu-west-1" p.2 = .ok q.2)
      [("b", ConfigNode.str "x"), ("a", ConfigNode.str "y")]
      [("b", ConfigNode.str "x"), ("a", ConfigNode.str "y")] ∧
    generate_user_data (fun _ _ => Except.ok ConfigNode.null : Resolver String)
        "eu-west-1" (ConfigNode.map [("b", ConfigNode.str "x"), ("a", ConfigNode.str "y")]) =
      .ok (.plain "#taupage-ami-config\nb: x\na: y\n".data) :=
  ⟨mapping_order_through_pipeline.1 (fun _ _ => Except.ok ConfigNode.null)
     "eu-west-1" [("b", ConfigNode.str "x"), ("a", ConfigNode.str "y")]
     [("b", ConfigNode.str "x"), ("a", ConfigNode.str "y")] (by decide),
   by decide⟩

/-! ### Shape of split results (claim C8) -/

/-- The alternating literal/expression shape: a single literal, or a
literal followed by an expression followed (recursively) by the same
shape — equivalently odd length, literals at both ends and at every
even index, expressions at every odd index. -/
def altLit : List SplitPart → Bool
  | [.lit _] => true
  | .lit _ :: .expr _ :: rest => altLit rest
  | _ => false

theorem altLit_length : ∀ parts : List SplitPart,
    altLit parts = true → 1 ≤ parts.length
  | [.lit _], _ => by simp
  | .lit _ :: .expr _ :: rest, _ => by simp
  | [], h => by simp [altLit] at h
  | .expr _ :: _, h => by simp [altLit] at h
  | .lit _ :: .lit _ :: _, h => by simp [altLit] at h

theorem altLit_cases : ∀ parts : List SplitPart, altLit parts = true →
    (∃ s, parts = [.lit s]) ∨
      (∃ s v rest, parts = .lit s :: .expr v :: rest ∧ altLit rest = true)
  | [.lit s], _ => Or.inl ⟨s, rfl⟩
  | .lit s :: .expr v :: rest, h => Or.inr ⟨s, v, rest, rfl, h⟩
  | [], h => by simp [altLit] at h
  | .expr _ :: _, h => by simp [altLit] at h
  | .lit _ :: .lit _ :: _, h => by simp [altLit] at h

theorem splitGo_altLit : ∀ (fuel : Nat) (text : List Char)
    (parts : List SplitPart), splitGo fuel text = .ok parts →
    altLit parts = true := by
  intro fuel
  induction fuel with
  | zero => intro text parts h; simp [splitGo] at h
  | succ f ih =>
      intro text parts h
      simp only [splitGo, Bind.bind, Except.bind] at h
      split at h
      · simp at h; rw [← h]; rfl
      · split at h
        · simp at h; rw [← h]; rfl
        · split at h
          · simp at h
          · rename_i v hv
            split at h
            · simp at h
            · rename_i rest hrest
              simp at h
              rw [← h]
              simpa [altLit] using ih _ rest hrest

/-- Claim C8: every successful `split` result has the alternating shape
— odd length, bounded on both sides (and around every expression) by
literal elements; and the pipeline collapses a one-element result to
the bare literal string while any other result becomes a join
expression of length at least 3. -/
theorem split_shape_and_collapse :
    (∀ (text : List Char) (parts : List SplitPart),
        split text = .ok parts → altLit parts = true) ∧
    (∀ (r : Resolver String) (region : String) (t : ConfigNode)
        (out : UserData), generate_user_data r region t = .ok out →
        (∃ s, out = .plain s) ∨
        (∃ parts, out = .fnJoin parts ∧ altLit parts = true ∧
          3 ≤ parts.length)) := by
  constructor
  · intro text parts h
    exact splitGo_altLit _ _ _ h
  · intro r region t out h
    simp only [generate_user_data] at h
    split at h
    · simp at h
    · rename_i t' htr
      split at h
      · simp at h
      · rename_i parts hs
        have halt := splitGo_altLit _ _ _ hs
        rcases altLit_cases parts halt with ⟨s, rfl⟩ | ⟨s, v, rest, rfl, hr⟩
        · simp at h
          exact Or.inl ⟨s, h.symm⟩
        · simp at h
          refine Or.inr ⟨.lit s :: .expr v :: rest, h.symm, halt, ?_⟩
          have := altLit_length rest hr
          simp only [List.length_cons]
          omega

/-- Witness for C8 at a concrete match-free text. -/
theorem split_shape_and_collapse_witness :
    altLit [.lit "hello".data] = true :=
  split_shape_and_collapse.1 "hello".data [.lit "hello".data] (by decide)

/-! ### JSON round-trip (claim C6) -/

theorem char_toNat_ofNat {n : Nat} (h : n < 55296) : (Char.ofNat n).toNat = n := by
  unfold Char.ofNat
  rw [dif_pos (Or.inl h)]
  rfl

theorem decDig_toNat {n : Nat} (h : n < 10) : (decDig n).toNat = 48 + n :=
  char_toNat_ofNat (by omega)

theorem isDigC_decDig {n : Nat} (h : n < 10) : isDigC (decDig n) = true := by
  simp [isDigC, decDig_toNat h]
  omega

theorem hexVal_hexDig {d : Nat} (h : d < 16) : hexVal (hexDig d) = some d := by
  interval_cases d <;> decide

theorem natCharsF_acc : ∀ (fuel n : Nat) (acc : List Char),
    natCharsF fuel n acc = natCharsF fuel n [] ++ acc := by
  intro fuel
  induction fuel with
  | zero => intro n acc; simp [natCharsF]
  | succ f ih =>
      intro n acc
      by_cases h : n < 10
      · simp [natCharsF, h]
      · simp only [natCharsF, if_neg h]
        rw [ih (n / 10) (decDig (n % 10) :: acc), ih (n / 10) [decDig (n % 10)]]
        simp

theorem natChars_digits : ∀ (fuel n : Nat) (acc : List Char),
    (∀ c ∈ acc, isDigC c = true) →
    ∀ c ∈ natCharsF fuel n acc, isDigC c = true := by
  intro fuel
  induction fuel with
  | zero => intro n acc hacc; simpa [natCharsF] using hacc
  | succ f ih =>
      intro n acc hacc c hc
      by_cases h : n < 10
      · simp only [natCharsF, if_pos h] at hc
        rcases List.mem_cons.mp hc with rfl | hmem
        · exact isDigC_decDig h
        · exact hacc c hmem
      · simp only [natCharsF, if_neg h] at hc
        refine ih (n / 10) _ ?_ c hc
        intro d hd
        rcases List.mem_cons.mp hd with rfl | hmem
        · exact isDigC_decDig (Nat.mod_lt _ (by omega))
        · exact hacc d hmem

theorem natChars_ne_nil (n : Nat) : natChars n ≠ [] := by
  unfold natChars natCharsF
  by_cases h : n < 10
  · simp [h]
  · simp only [if_neg h]
    rw [natCharsF_acc]
    simp

theorem digsVal_append_single (xs : List Char) (c : Char) :
    digsVal (xs ++ [c]) = digsVal xs * 10 + (c.toNat - 48) := by
  simp [digsVal, List.foldl_append]

theorem digsVal_natCharsF : ∀ (fuel n : Nat), n < fuel →
    digsVal (natCharsF fuel n []) = n := by
  intro fuel
  induction fuel with
  | zero => omega
  | succ f ih =>
      intro n hn
      by_cases h : n < 10
      · simp [natCharsF, h, digsVal, decDig_toNat h]
      · simp only [natCharsF, if_neg h]
        rw [natCharsF_acc, digsVal_append_single,
          ih (n / 10) (by omega),
          decDig_toNat (Nat.mod_lt _ (by omega))]
        omega

theorem digsVal_natChars (n : Nat) : digsVal (natChars n) = n :=
  digsVal_natCharsF (n + 1) n (Nat.lt_succ_self n)

/-- The head condition ending a digit run: empty input or a non-digit. -/
def notDigHead : List Char → Bool
  | [] => true
  | c :: _ => !isDigC c

theorem takeDigs_exact : ∀ (ds rest : List Char),
    (∀ c ∈ ds, isDigC c = true) → notDigHead rest = true →
    takeDigs (ds ++ rest) = (ds, rest) := by
  intro ds
  induction ds with
  | nil =>
      intro rest _ hrest
      match rest with
      | [] => rfl
      | c :: r =>
          simp only [notDigHead, Bool.not_eq_true'] at hrest
          simp [takeDigs, hrest]
  | cons d ds ih =>
      intro rest hds hrest
      have hd : isDigC d = true := hds d (by simp)
      simp only [List.cons_append, takeDigs, hd, if_true, List.append_eq,
        ih rest (fun c hc => hds c (by simp [hc])) hrest]

theorem string_mk_data (s : String) : String.mk s.data = s := by
  obtain ⟨l⟩ := s
  rfl

theorem parseJStrAux_esc (c : Char) (acc rest : List Char) :
    parseJStrAux acc (jEscChar c ++ rest) = parseJStrAux (c :: acc) rest := by
  by_cases h1 : c = '"'
  · subst h1; simp [jEscChar, parseJStrAux, unesc]
  · by_cases h2 : c = '\\'
    · subst h2; simp [jEscChar, parseJStrAux, unesc]
    · by_cases h3 : c = '\n'
      · subst h3; simp [jEscChar, parseJStrAux, unesc]
      · by_cases h4 : c = '\t'
        · subst h4; simp [jEscChar, parseJStrAux, unesc]
        · by_cases h5 : c = '\r'
          · subst h5; simp [jEscChar, parseJStrAux, unesc]
          · by_cases h6 : c = Char.ofNat 8
            · subst h6; simp [jEscChar, parseJStrAux, unesc]
            · by_cases h7 : c = Char.ofNat 12
              · subst h7; simp [jEscChar, parseJStrAux, unesc]
              · by_cases h8 : c.toNat < 32
                · simp only [jEscChar, if_neg h1, if_neg h2, if_neg h3,
                    if_neg h4, if_neg h5, if_neg h6, if_neg h7, if_pos h8,
                    hex4, List.cons_append]
                  have h16 : ∀ k : Nat, k % 16 < 16 :=
                    fun k => Nat.mod_lt _ (by omega)
                  rw [parseJStrAux]
                  simp only [hexVal_hexDig (h16 _)]
                  have harith :
                      ((c.toNat / 4096 % 16 * 16 + c.toNat / 256 % 16) * 16 +
                        c.toNat / 16 % 16) * 16 + c.toNat % 16 = c.toNat := by
                    omega
                  rw [harith, Char.ofNat_toNat, List.nil_append]
                · simp only [jEscChar, if_neg h1, if_neg h2, if_neg h3,
                    if_neg h4, if_neg h5, if_neg h6, if_neg h7, if_neg h8,
                    List.singleton_append]
                  rw [parseJStrAux.eq_def]
                  simp [h1, h2]

theorem parseJStrAux_jEscAll : ∀ (s acc rest : List Char),
    parseJStrAux acc (jEscAll s ++ '"' :: rest) =
      .ok (acc.reverse ++ s, rest) := by
  intro s
  induction s with
  | nil => intro acc rest; simp [jEscAll, parseJStrAux]
  | cons c s ih =>
      intro acc rest
      rw [jEscAll, List.append_assoc, parseJStrAux_esc, ih]
      simp

theorem jWsC_of (c : Char) (h : jWsC c = true) :
    c = ' ' ∨ c = '\t' ∨ c = '\n' ∨ c = '\r' := by
  simpa [jWsC, or_assoc] using h

theorem isDigC_facts {c : Char} (h : isDigC c = true) :
    c ≠ 'n' ∧ c ≠ 't' ∧ c ≠ 'f' ∧ c ≠ '"' ∧ c ≠ '[' ∧ c ≠ '\x7b' ∧
      c ≠ '-' ∧ jWsC c = false := by
  refine ⟨?_, ?_, ?_, ?_, ?_, ?_, ?_, ?_⟩
  · intro he; rw [he] at h; exact absurd h (by decide)
  · intro he; rw [he] at h; exact absurd h (by decide)
  · intro he; rw [he] at h; exact absurd h (by decide)
  · intro he; rw [he] at h; exact absurd h (by decide)
  · intro he; rw [he] at h; exact absurd h (by decide)
  · intro he; rw [he] at h; exact absurd h (by decide)
  · intro he; rw [he] at h; exact absurd h (by decide)
  · cases hw : jWsC c with
    | false => rfl
    | true =>
        exfalso
        rcases jWsC_of c hw with he | he | he | he <;> rw [he] at h <;>
          exact absurd h (by decide)

theorem skipWs_cons_nws {c : Char} (h : jWsC c = false) (t : List Char) :
    skipWs (c :: t) = c :: t := by
  simp [skipWs, h]

theorem skipWs_cons_sp (t : List Char) : skipWs (' ' :: t) = skipWs t := by
  simp [skipWs, jWsC]

theorem parseVal_ws (fuel : Nat) (t : List Char) :
    parseVal fuel (' ' :: t) = parseVal fuel t := by
  cases fuel with
  | zero => rfl
  | succ f =>
      simp only [parseVal]
      rw [skipWs_cons_sp]

theorem parseMembers_ws (fuel : Nat) (t : List Char) :
    parseMembers fuel (' ' :: t) = parseMembers fuel t := by
  cases fuel with
  | zero => rfl
  | succ f =>
      simp only [parseMembers]
      rw [skipWs_cons_sp]

theorem natChars_cons (n : Nat) :
    ∃ c t, natChars n = c :: t ∧ isDigC c = true := by
  cases hnc : natChars n with
  | nil => exact absurd hnc (natChars_ne_nil n)
  | cons c t =>
      refine ⟨c, t, rfl, ?_⟩
      have hmem : c ∈ natChars n := by rw [hnc]; simp
      exact natChars_digits (n + 1) n [] (by simp) c hmem

theorem parseVal_digit (f : Nat) (c0 : Char) (t : List Char)
    (hd : isDigC c0 = true) :
    parseVal (f + 1) (c0 :: t) = parseNumAfter false (c0 :: t) := by
  obtain ⟨hn, ht, hf, hq, hbk, hbc, hm, hws⟩ := isDigC_facts hd
  simp only [parseVal]
  rw [skipWs_cons_nws hws]
  simp [hn, ht, hf, hq, hbk, hbc, hm, hd]

theorem parseNumAfter_exact (neg : Bool) (n : Nat) (rest : List Char)
    (hrest : notDigHead rest = true) :
    parseNumAfter neg (natChars n ++ rest) =
      .ok (.int (cond neg (-(n : Int)) (n : Int)), rest) := by
  have hdigs : ∀ c ∈ natChars n, isDigC c = true :=
    fun c hc => natChars_digits (n + 1) n [] (by simp) c hc
  have htake : takeDigs (natChars n ++ rest) = (natChars n, rest) :=
    takeDigs_exact _ _ hdigs hrest
  obtain ⟨c0, t0, hnc, _⟩ := natChars_cons n
  simp only [parseNumAfter, htake]
  rw [hnc]
  simp only [List.isEmpty_cons, Bool.false_eq_true, if_false]
  rw [← hnc, digsVal_natChars]
  cases neg <;> simp

theorem jdEntriesSep_cons (k : String) (v : ConfigNode)
    (rest : List (String × ConfigNode)) :
    jdEntriesSep ((k, v) :: rest) = ',' :: ' ' :: jdEntries ((k, v) :: rest) :=
  rfl

theorem jdItemsSep_cons (v : ConfigNode) (rest : List ConfigNode) :
    jdItemsSep (v :: rest) = ',' :: ' ' :: jdItems (v :: rest) := rfl

theorem isDigC_facts2 {c : Char} (h : isDigC c = true) :
    c ≠ ']' ∧ c ≠ '\x7d' ∧ c ≠ ',' := by
  refine ⟨?_, ?_, ?_⟩ <;>
    (intro he; rw [he] at h; exact absurd h (by decide))

theorem parseVal_str_step (f : Nat) (X : List Char) :
    parseVal (f + 1) ('"' :: X) =
      (match parseJStrAux [] X with
       | .ok (s, rest') => .ok (.str (String.mk s), rest')
       | .error e => .error e) := rfl

theorem parseVal_map_step (f : Nat) (X : List Char) :
    parseVal (f + 1) ('\x7b' :: X) =
      (match skipWs X with
       | [] => .error "unexpected end of input"
       | c :: cs' =>
           if c = '\x7d' then .ok (.map [], cs')
           else
             match parseMembers f (c :: cs') with
             | .ok p => .ok (.map p.1, p.2)
             | .error e => .error e) := rfl

theorem parseVal_seq_step (f : Nat) (X : List Char) :
    parseVal (f + 1) ('[' :: X) =
      (match skipWs X with
       | [] => .error "unexpected end of input"
       | c :: cs' =>
           if c = ']' then .ok (.seq [], cs')
           else
             match parseElems f (c :: cs') with
             | .ok p => .ok (.seq p.1, p.2)
             | .error e => .error e) := rfl

theorem parseVal_neg_step (f : Nat) (X : List Char) :
    parseVal (f + 1) ('-' :: X) = parseNumAfter true X := rfl

theorem parseMembers_step (f : Nat) (cs : List Char) :
    parseMembers (f + 1) cs =
      (match skipWs cs with
       | '"' :: rest =>
           (match parseJStrAux [] rest with
            | .error e => .error e
            | .ok (k, r) =>
                match skipWs r with
                | ':' :: r' =>
                    (match parseVal f r' with
                     | .error e => .error e
                     | .ok (v, r2) =>
                         match skipWs r2 with
                         | ',' :: r3 =>
                             (match parseMembers f r3 with
                              | .ok (ms, r4) => .ok ((String.mk k, v) :: ms, r4)
                              | .error e => .error e)
                         | '\x7d' :: r3 => .ok ([(String.mk k, v)], r3)
                         | _ => .error "expected comma or brace")
                | _ => .error "expected colon")
       | _ => .error "expected property name") := rfl

theorem parseElems_step (f : Nat) (cs : List Char) :
    parseElems (f + 1) cs =
      (match parseVal f cs with
       | .error e => .error e
       | .ok (v, r) =>
           match skipWs r with
           | ',' :: r' =>
               (match parseElems f r' with
                | .ok (xs, r'') => .ok (v :: xs, r'')
                | .error e => .error e)
           | ']' :: r' => .ok ([v], r')
           | _ => .error "expected comma or bracket") := rfl

theorem parseElems_ws (fuel : Nat) (t : List Char) :
    parseElems fuel (' ' :: t) = parseElems fuel t := by
  cases fuel with
  | zero => rfl
  | succ f =>
      rw [parseElems_step, parseElems_step, parseVal_ws]

theorem jdChars_head (v : ConfigNode) :
    ∃ c t, jdChars v = c :: t ∧ jWsC c = false ∧ c ≠ ']' ∧ c ≠ '\x7d' ∧
      c ≠ ',' := by
  cases v with
  | str s =>
      exact ⟨'"', jEscAll s.data ++ ['"'], rfl, by decide, by decide,
        by decide, by decide⟩
  | int i =>
      by_cases h : i < 0
      · refine ⟨'-', natChars i.natAbs, ?_, by decide, by decide, by decide,
          by decide⟩
        simp [jdChars, intChars, h]
      · obtain ⟨c0, t0, hnc, hd⟩ := natChars_cons i.natAbs
        obtain ⟨_, _, _, _, _, _, _, hws⟩ := isDigC_facts hd
        obtain ⟨h1, h2, h3⟩ := isDigC_facts2 hd
        refine ⟨c0, t0, ?_, hws, h1, h2, h3⟩
        simp [jdChars, intChars, h, hnc]
  | bool b =>
      cases b with
      | true =>
          exact ⟨'t', ['r', 'u', 'e'], rfl, by decide, by decide, by decide,
            by decide⟩
      | false =>
          exact ⟨'f', ['a', 'l', 's', 'e'], rfl, by decide, by decide,
            by decide, by decide⟩
  | null =>
      exact ⟨'n', ['u', 'l', 'l'], rfl, by decide, by decide, by decide,
        by decide⟩
  | map es =>
      exact ⟨'\x7b', jdEntries es ++ ['\x7d'], rfl, by decide, by decide,
        by decide, by decide⟩
  | seq xs =>
      exact ⟨'[', jdItems xs ++ [']'], rfl, by decide, by decide, by decide,
        by decide⟩

theorem skipWs_jd (v : ConfigNode) (x : List Char) :
    skipWs (jdChars v ++ x) = jdChars v ++ x := by
  obtain ⟨c, t, hv, hws, _, _, _⟩ := jdChars_head v
  rw [hv, List.cons_append, skipWs_cons_nws hws]

mutual
theorem rt_val : ∀ (v : ConfigNode) (fuel : Nat) (rest : List Char),
    (jdChars v).length < fuel → notDigHead rest = true →
    parseVal fuel (jdChars v ++ rest) = .ok (v, rest)
  | .null, fuel, rest, hf, _ => by
      cases fuel with
      | zero => exact absurd hf (Nat.not_lt_zero _)
      | succ f => simp [jdChars, parseVal, skipWs, jWsC]
  | .bool true, fuel, rest, hf, _ => by
      cases fuel with
      | zero => exact absurd hf (Nat.not_lt_zero _)
      | succ f => simp [jdChars, parseVal, skipWs, jWsC]
  | .bool false, fuel, rest, hf, _ => by
      cases fuel with
      | zero => exact absurd hf (Nat.not_lt_zero _)
      | succ f => simp [jdChars, parseVal, skipWs, jWsC]
  | .str s, fuel, rest, hf, _ => by
      cases fuel with
      | zero => exact absurd hf (Nat.not_lt_zero _)
      | succ f =>
          have harg : jdChars (.str s) ++ rest =
              '"' :: (jEscAll s.data ++ '"' :: rest) := by
            simp [jdChars, jStr]
          rw [harg, parseVal_str_step, parseJStrAux_jEscAll]
          simp [string_mk_data]
  | .int i, fuel, rest, hf, hrest => by
      cases fuel with
      | zero => exact absurd hf (Nat.not_lt_zero _)
      | succ f =>
          by_cases hneg : i < 0
          · have harg : jdChars (.int i) ++ rest =
                '-' :: (natChars i.natAbs ++ rest) := by
              simp [jdChars, intChars, hneg]
            rw [harg, parseVal_neg_step,
              parseNumAfter_exact true i.natAbs rest hrest]
            have hi : -(i.natAbs : Int) = i := by omega
            simp only [Bool.cond_true, hi]
          · obtain ⟨c0, t0, hnc, hd0⟩ := natChars_cons i.natAbs
            have harg : jdChars (.int i) ++ rest = c0 :: (t0 ++ rest) := by
              simp [jdChars, intChars, hneg, hnc]
            rw [harg, parseVal_digit f c0 _ hd0]
            have harg2 : c0 :: (t0 ++ rest) = natChars i.natAbs ++ rest := by
              simp [hnc]
            rw [harg2, parseNumAfter_exact false i.natAbs rest hrest]
            have hi : (i.natAbs : Int) = i := by omega
            simp only [Bool.cond_false, hi]
  | .map [], fuel, rest, hf, _ => by
      cases fuel with
      | zero => exact absurd hf (Nat.not_lt_zero _)
      | succ f =>
          have harg : jdChars (.map []) ++ rest =
              '\x7b' :: ('\x7d' :: rest) := by
            simp [jdChars, jdEntries]
          rw [harg, parseVal_map_step, skipWs_cons_nws (by decide)]
          rfl
  | .map ((k, v) :: ms), fuel, rest, hf, _ => by
      cases fuel with
      | zero => exact absurd hf (Nat.not_lt_zero _)
      | succ f =>
          have hlen : (jdChars (.map ((k, v) :: ms))).length =
              (jdEntries ((k, v) :: ms)).length + 2 := by
            simp [jdChars]
          have key := rt_members (k, v) ms f rest (by omega)
          have harg : jdChars (.map ((k, v) :: ms)) ++ rest =
              '\x7b' :: (jdEntries ((k, v) :: ms) ++ '\x7d' :: rest) := by
            simp [jdChars]
          have hhead : jdEntries ((k, v) :: ms) ++ '\x7d' :: rest =
              '"' :: ((jEscAll k.data ++ '"' :: ':' :: ' ' ::
                (jdChars v ++ jdEntriesSep ms)) ++ '\x7d' :: rest) := by
            simp [jdEntries, jStr]
          rw [harg, parseVal_map_step, hhead, skipWs_cons_nws (by decide)]
          simp only [if_neg (show ¬('"' = '\x7d') by decide)]
          rw [← hhead, key]
  | .seq [], fuel, rest, hf, _ => by
      cases fuel with
      | zero => exact absurd hf (Nat.not_lt_zero _)
      | succ f =>
          have harg : jdChars (.seq []) ++ rest = '[' :: (']' :: rest) := by
            simp [jdChars, jdItems]
          rw [harg, parseVal_seq_step, skipWs_cons_nws (by decide)]
          rfl
  | .seq (x :: xs), fuel, rest, hf, _ => by
      cases fuel with
      | zero => exact absurd hf (Nat.not_lt_zero _)
      | succ f =>
          have hlen : (jdChars (.seq (x :: xs))).length =
              (jdItems (x :: xs)).length + 2 := by
            simp [jdChars]
          have key := rt_elems x xs f rest (by omega)
          have harg : jdChars (.seq (x :: xs)) ++ rest =
              '[' :: (jdItems (x :: xs) ++ ']' :: rest) := by
            simp [jdChars]
          obtain ⟨c, t, hx, hws, hbr, _, _⟩ := jdChars_head x
          have hhead : jdItems (x :: xs) ++ ']' :: rest =
              c :: ((t ++ jdItemsSep xs) ++ ']' :: rest) := by
            simp [jdItems, hx]
          rw [harg, parseVal_seq_step, hhead, skipWs_cons_nws hws]
          simp only [if_neg hbr]
          rw [← hhead, key]
theorem rt_members : ∀ (kv : String × ConfigNode)
    (ms : List (String × ConfigNode)) (fuel : Nat) (rest : List Char),
    (jdEntries (kv :: ms)).length + 1 < fuel →
    parseMembers fuel (jdEntries (kv :: ms) ++ '\x7d' :: rest) =
      .ok (kv :: ms, rest)
  | (k, v), [], fuel, rest, hf => by
      cases fuel with
      | zero => omega
      | succ f =>
          have hlen : (jdEntries [(k, v)]).length =
              (jEscAll k.data).length + 4 + (jdChars v).length := by
            simp [jdEntries, jStr, jdEntriesSep]
            omega
          have hv := rt_val v f ('\x7d' :: rest) (by omega) rfl
          have hargv : jdEntries [(k, v)] ++ '\x7d' :: rest =
              '"' :: (jEscAll k.data ++ '"' :: (':' :: (' ' ::
                (jdChars v ++ '\x7d' :: rest)))) := by
            simp [jdEntries, jStr, jdEntriesSep]
          rw [hargv, parseMembers_step, skipWs_cons_nws (by decide)]
          simp only [parseJStrAux_jEscAll, List.reverse_nil, List.nil_append,
            skipWs_cons_nws (show jWsC ':' = false by decide)]
          rw [parseVal_ws, hv]
          simp only [skipWs_cons_nws (show jWsC '\x7d' = false by decide)]
  | (k, v), (k2, v2) :: ms, fuel, rest, hf => by
      cases fuel with
      | zero => omega
      | succ f =>
          have hlen : (jdEntries ((k, v) :: (k2, v2) :: ms)).length =
              (jEscAll k.data).length + 6 + (jdChars v).length +
                (jdEntries ((k2, v2) :: ms)).length := by
            rw [jdEntries, jdEntriesSep_cons]
            simp [jStr]
            omega
          have hv := rt_val v f
            (',' :: (' ' :: (jdEntries ((k2, v2) :: ms) ++ '\x7d' :: rest)))
            (by omega) rfl
          have hms := rt_members (k2, v2) ms f rest (by omega)
          have hargv : jdEntries ((k, v) :: (k2, v2) :: ms) ++ '\x7d' :: rest =
              '"' :: (jEscAll k.data ++ '"' :: (':' :: (' ' ::
                (jdChars v ++ ',' :: (' ' ::
                  (jdEntries ((k2, v2) :: ms) ++ '\x7d' :: rest)))))) := by
            rw [jdEntries, jdEntriesSep_cons]
            simp [jStr]
          rw [hargv, parseMembers_step, skipWs_cons_nws (by decide)]
          simp only [parseJStrAux_jEscAll, List.reverse_nil, List.nil_append,
            skipWs_cons_nws (show jWsC ':' = false by decide)]
          rw [parseVal_ws, hv]
          simp only [skipWs_cons_nws (show jWsC ',' = false by decide)]
          rw [parseMembers_ws, hms]
theorem rt_elems : ∀ (x : ConfigNode) (xs : List ConfigNode) (fuel : Nat)
    (rest : List Char),
    (jdItems (x :: xs)).length + 1 < fuel →
    parseElems fuel (jdItems (x :: xs) ++ ']' :: rest) = .ok (x :: xs, rest)
  | x, [], fuel, rest, hf => by
      cases fuel with
      | zero => omega
      | succ f =>
          have hlen : (jdItems [x]).length = (jdChars x).length := by
            simp [jdItems, jdItemsSep]
          have hv := rt_val x f (']' :: rest) (by omega) rfl
          have hargv : jdItems [x] ++ ']' :: rest =
              jdChars x ++ ']' :: rest := by
            simp [jdItems, jdItemsSep]
          rw [hargv, parseElems_step, hv]
          simp only [skipWs_cons_nws (show jWsC ']' = false by decide)]
  | x, y :: ys, fuel, rest, hf => by
      cases fuel with
      | zero => omega
      | succ f =>
          have hlen : (jdItems (x :: y :: ys)).length =
              (jdChars x).length + 2 + (jdItems (y :: ys)).length := by
            rw [jdItems, jdItemsSep_cons]
            simp
            omega
          have hv := rt_val x f
            (',' :: (' ' :: (jdItems (y :: ys) ++ ']' :: rest)))
            (by omega) rfl
          have hys := rt_elems y ys f rest (by omega)
          have hargv : jdItems (x :: y :: ys) ++ ']' :: rest =
              jdChars x ++ ',' :: (' ' ::
                (jdItems (y :: ys) ++ ']' :: rest)) := by
            rw [jdItems, jdItemsSep_cons]
            simp
          rw [hargv, parseElems_step, hv]
          simp only [skipWs_cons_nws (show jWsC ',' = false by decide)]
          rw [parseElems_ws, hys]
end

theorem jsonLoads_jdChars (v : ConfigNode) : jsonLoads (jdChars v) = .ok v := by
  unfold jsonLoads
  have h := rt_val v ((jdChars v).length + 1) [] (Nat.lt_succ_self _) rfl
  rw [List.append_nil] at h
  rw [h]
  simp [skipWs]

/-- The text strictly between the `{{ ` and ` }}` markers of a
placeholder. -/
def betweenMarkers (s : List Char) : List Char :=
  (s.drop 3).take ((s.drop 3).length - 3)

theorem betweenMarkers_placeholder (n : ConfigNode) :
    betweenMarkers (placeholderChars n) = jdChars n := by
  unfold betweenMarkers placeholderChars
  simp only [List.drop_succ_cons, List.drop_zero]
  have hl : (jdChars n ++ [' ', '\x7d', '\x7d']).length - 3 =
      (jdChars n).length := by
    simp
  rw [hl]
  exact List.take_left _ _

/-- Claim C6: decoding the JSON between the `{{ ` and ` }}` markers of
the placeholder produced by encoding a DeferredExpressionNode (a
single-entry mapping whose key is `Ref` or starts with `Fn::`) yields a
node structurally equal to the encoded node — same key, same value
tree. -/
theorem deferred_roundtrip (k : String) (v : ConfigNode)
    (_h : is_aws_fn k = true) :
    jsonLoads (betweenMarkers (placeholderChars (.map [(k, v)]))) =
      .ok (.map [(k, v)]) := by
  rw [betweenMarkers_placeholder, jsonLoads_jdChars]

/-- Witness for C6 at the docstring's `{"Ref": "ExhibitorBucket"}`
node. -/
theorem deferred_roundtrip_witness :
    jsonLoads (betweenMarkers (placeholderChars
      (.map [("Ref", .str "ExhibitorBucket")]))) =
      .ok (.map [("Ref", .str "ExhibitorBucket")]) :=
  deferred_roundtrip "Ref" (.str "ExhibitorBucket") (by decide)

/-! ### Absence of spurious placeholder openers (claims C1, C4, C7)

The split pattern's opener `'{{ ` contains two adjacent opening braces;
text with no two adjacent opening braces can contain no match. -/

/-- Whether the text contains two adjacent opening braces. -/
def hasLL : List Char → Bool
  | [] => false
  | [_] => false
  | a :: b :: r => (a == '\x7b' && b == '\x7b') || hasLL (b :: r)

/-- Whether the first character is an opening brace. -/
def headIsLB (s : List Char) : Bool := s.head? == some '\x7b'

/-- Whether the last character is an opening brace. -/
def lastIsLB (s : List Char) : Bool := s.getLast? == some '\x7b'

theorem hasLL_cons (c : Char) (t : List Char) :
    hasLL (c :: t) = ((c == '\x7b' && headIsLB t) || hasLL t) := by
  cases t with
  | nil => simp [hasLL, headIsLB]
  | cons b r => simp [hasLL, headIsLB]

theorem hasLL_cons_ne {c : Char} (h : c ≠ '\x7b') (t : List Char) :
    hasLL (c :: t) = hasLL t := by
  rw [hasLL_cons]
  simp [h]

theorem lastIsLB_cons_of {c : Char} (hc : c ≠ '\x7b') {t : List Char}
    (ht : lastIsLB t = false) : lastIsLB (c :: t) = false := by
  cases t with
  | nil => simp [lastIsLB, hc]
  | cons b r =>
      rw [lastIsLB, List.getLast?_cons_cons]
      rw [lastIsLB] at ht
      exact ht

theorem lastIsLB_append (a : List Char) {b : List Char} (hb : b ≠ []) :
    lastIsLB (a ++ b) = lastIsLB b := by
  rw [lastIsLB, lastIsLB, List.getLast?_append_of_ne_nil _ hb]

theorem headIsLB_cons (c : Char) (t : List Char) :
    headIsLB (c :: t) = (c == '\x7b') := by
  simp [headIsLB]

theorem noLL_append : ∀ {a b : List Char}, hasLL a = false →
    hasLL b = false → (lastIsLB a = false ∨ headIsLB b = false) →
    hasLL (a ++ b) = false := by
  intro a
  induction a with
  | nil =>
      intro b _ hb _
      simpa using hb
  | cons c t ih =>
      intro b ha hb hj
      rw [hasLL_cons] at ha
      simp only [Bool.or_eq_false_iff, Bool.and_eq_false_iff] at ha
      obtain ⟨ha1, ha2⟩ := ha
      have hjt : lastIsLB t = false ∨ headIsLB b = false := by
        cases t with
        | nil => exact Or.inl (by simp [lastIsLB])
        | cons d r =>
            rcases hj with hj | hj
            · refine Or.inl ?_
              rw [lastIsLB, List.getLast?_cons_cons] at hj
              exact hj
            · exact Or.inr hj
      have htb : hasLL (t ++ b) = false := ih ha2 hb hjt
      rw [List.cons_append, hasLL_cons]
      simp only [Bool.or_eq_false_iff, Bool.and_eq_false_iff]
      refine ⟨?_, htb⟩
      by_cases hc : c = '\x7b'
      · subst hc
        refine Or.inr ?_
        cases t with
        | nil =>
            rcases hj with hj | hj
            · exfalso
              simp [lastIsLB] at hj
            · simpa using hj
        | cons d r =>
            have hd : headIsLB (d :: r) = false := by
              rcases ha1 with h | h
              · simp at h
              · exact h
            rw [List.cons_append, headIsLB_cons]
            rw [headIsLB_cons] at hd
            exact hd
      · exact Or.inl (by simp [hc])

/-- All characters differ from the opening brace. -/
def lbFree (s : List Char) : Bool := s.all (fun c => !(c == '\x7b'))

theorem hasLL_of_lbFree : ∀ {s : List Char}, lbFree s = true → hasLL s = false := by
  intro s
  induction s with
  | nil => intro _; rfl
  | cons c t ih =>
      intro h
      simp only [lbFree, List.all_cons, Bool.and_eq_true, Bool.not_eq_true',
        beq_eq_false_iff_ne, ne_eq] at h
      rw [hasLL_cons_ne h.1]
      exact ih (by simp [lbFree, h.2])

theorem lastIsLB_of_lbFree : ∀ {s : List Char}, lbFree s = true →
    lastIsLB s = false := by
  intro s
  induction s with
  | nil => intro _; rfl
  | cons c t ih =>
      intro h
      simp only [lbFree, List.all_cons, Bool.and_eq_true, Bool.not_eq_true',
        beq_eq_false_iff_ne, ne_eq] at h
      exact lastIsLB_cons_of h.1 (ih (by simp [lbFree, h.2]))

theorem pad_lbFree : ∀ ind : Nat, lbFree (pad ind) = true
  | 0 => rfl
  | n + 1 => by
      have h := pad_lbFree n
      simp only [lbFree, pad, List.replicate_succ, List.all_cons] at h ⊢
      simp [h]

theorem intChars_lbFree (i : Int) : lbFree (intChars i) = true := by
  have hnat : lbFree (natChars i.natAbs) = true := by
    simp only [lbFree, List.all_eq_true]
    intro c hc
    have hd := natChars_digits (i.natAbs + 1) i.natAbs [] (by simp) c hc
    simp only [Bool.not_eq_true', beq_eq_false_iff_ne, ne_eq]
    intro he
    rw [he] at hd
    exact absurd hd (by decide)
  by_cases h : i < 0
  · simp [intChars, h, lbFree] at hnat ⊢
    exact hnat
  · simpa [intChars, h, lbFree] using hnat

theorem headIsLB_dupApos : ∀ s : List Char, headIsLB (dupApos s) = headIsLB s := by
  intro s
  cases s with
  | nil => rfl
  | cons c r =>
      by_cases h : c = '\''
      · subst h
        simp [dupApos, headIsLB]
      · simp [dupApos, h, headIsLB]

theorem hasLL_dupApos : ∀ s : List Char, hasLL s = false →
    hasLL (dupApos s) = false := by
  intro s
  induction s with
  | nil => intro _; rfl
  | cons c r ih =>
      intro h
      rw [hasLL_cons] at h
      simp only [Bool.or_eq_false_iff, Bool.and_eq_false_iff] at h
      obtain ⟨h1, h2⟩ := h
      by_cases hc : c = '\''
      · subst hc
        show hasLL ('\'' :: '\'' :: dupApos r) = false
        rw [hasLL_cons_ne (by decide), hasLL_cons_ne (by decide)]
        exact ih h2
      · simp only [dupApos, if_neg hc]
        rw [hasLL_cons, headIsLB_dupApos, ih h2]
        simp only [Bool.or_false]
        rcases h1 with h | h
        · simp [h]
        · simp [h]

theorem yamlQuote_noLL {s : List Char} (h : hasLL s = false) :
    hasLL (yamlQuote s) = false ∧ lastIsLB (yamlQuote s) = false := by
  constructor
  · rw [yamlQuote, hasLL_cons_ne (by decide)]
    exact noLL_append (hasLL_dupApos s h) rfl (Or.inr (by decide))
  · rw [yamlQuote]
    refine lastIsLB_cons_of (by decide) ?_
    rw [lastIsLB_append _ (by simp)]
    decide

mutual
/-- No string scalar and no mapping key anywhere in the tree contains
two adjacent opening braces. -/
def cleanStrs : ConfigNode → Bool
  | .str s => !hasLL s.data
  | .map es => cleanEntries es
  | .seq xs => cleanItems xs
  | .int _ => true
  | .bool _ => true
  | .null => true
def cleanEntries : List (String × ConfigNode) → Bool
  | [] => true
  | (k, v) :: rest => !hasLL k.data && cleanStrs v && cleanEntries rest
def cleanItems : List ConfigNode → Bool
  | [] => true
  | v :: rest => cleanStrs v && cleanItems rest
end

theorem inline_noLL : ∀ v : ConfigNode, cleanStrs v = true →
    hasLL (inlineChars v) = false
  | .str s, h => by
      simp only [cleanStrs, Bool.not_eq_true'] at h
      by_cases hq : needsQuoteC s.data = true
      · simp only [inlineChars, hq, if_true]
        exact (yamlQuote_noLL h).1
      · simp only [inlineChars, Bool.not_eq_true _ ▸ hq, if_neg hq]
        exact h
  | .int i, _ => hasLL_of_lbFree (intChars_lbFree i)
  | .bool true, _ => rfl
  | .bool false, _ => rfl
  | .null, _ => rfl
  | .map es, _ => rfl
  | .seq xs, _ => rfl

theorem inline_lastIsLB : ∀ v : ConfigNode, cleanStrs v = true →
    lastIsLB (inlineChars v ++ ['\n']) = false := by
  intro v _
  rw [lastIsLB_append _ (by simp)]
  decide

theorem lastIsLB_append2 {a b : List Char} (ha : lastIsLB a = false)
    (hb : lastIsLB b = false) : lastIsLB (a ++ b) = false := by
  cases b with
  | nil => simpa using ha
  | cons c t => rw [lastIsLB_append a (by simp)]; exact hb

/-- The indented key text of a mapping entry contains no adjacent
opening braces. -/
theorem preKey_noLL (ind : Nat) (k : String) (hk : hasLL k.data = false) :
    hasLL (pad ind ++ keyChars k) = false := by
  refine noLL_append (hasLL_of_lbFree (pad_lbFree ind)) ?_
    (Or.inl (lastIsLB_of_lbFree (pad_lbFree ind)))
  show hasLL (inlineChars (.str k)) = false
  refine inline_noLL (.str k) ?_
  simp [cleanStrs, hk]

/-- An inline-valued line `pre ++ c ++ " " ++ value ++ "\n"` contains
no adjacent opening braces and does not end in one. -/
theorem serInline_noLL (pre : List Char) (c : Char) (hc : c ≠ '\x7b')
    (v : ConfigNode) (hp : hasLL pre = false) (hv : cleanStrs v = true) :
    hasLL (pre ++ c :: ' ' :: (inlineChars v ++ ['\n'])) = false ∧
    lastIsLB (pre ++ c :: ' ' :: (inlineChars v ++ ['\n'])) = false := by
  constructor
  · refine noLL_append hp ?_ (Or.inr (by rw [headIsLB_cons]; simp [hc]))
    rw [hasLL_cons_ne hc, hasLL_cons_ne (by decide)]
    exact noLL_append (inline_noLL v hv) rfl (Or.inr (by decide))
  · rw [lastIsLB_append pre (by simp)]
    refine lastIsLB_cons_of hc (lastIsLB_cons_of (by decide) ?_)
    rw [lastIsLB_append _ (by simp)]
    decide

/-- A nested-collection line `pre ++ c ++ "\n" ++ block` contains no
adjacent opening braces and does not end in one, given the block does
not. -/
theorem serNest_noLL (pre : List Char) (c : Char) (hc : c ≠ '\x7b')
    (X : List Char) (hp : hasLL pre = false) (hX : hasLL X = false)
    (hXl : lastIsLB X = false) :
    hasLL (pre ++ c :: '\n' :: X) = false ∧
    lastIsLB (pre ++ c :: '\n' :: X) = false := by
  constructor
  · refine noLL_append hp ?_ (Or.inr (by rw [headIsLB_cons]; simp [hc]))
    rw [hasLL_cons_ne hc, hasLL_cons_ne (by decide)]
    exact hX
  · rw [lastIsLB_append pre (by simp)]
    exact lastIsLB_cons_of hc (lastIsLB_cons_of (by decide) hXl)

mutual
/-- Rendered mapping entries of a clean tree contain no adjacent
opening braces and do not end in one. -/
theorem serEntries_noLL : ∀ (ind : Nat) (es : List (String × ConfigNode)),
    cleanEntries es = true →
    hasLL (serEntries ind es) = false ∧ lastIsLB (serEntries ind es) = false
  | _, [], _ => ⟨rfl, rfl⟩
  | ind, (k, v) :: rest, h => by
      simp only [cleanEntries, Bool.and_eq_true, Bool.not_eq_true'] at h
      obtain ⟨⟨hk, hv⟩, hr⟩ := h
      have h1 := serEntryVal_noLL ind (pad ind ++ keyChars k) v
        (preKey_noLL ind k hk) hv
      have h2 := serEntries_noLL ind rest hr
      exact ⟨noLL_append h1.1 h2.1 (Or.inl h1.2), lastIsLB_append2 h1.2 h2.2⟩
/-- A rendered mapping entry of a clean tree contains no adjacent
opening braces and does not end in one. -/
theorem serEntryVal_noLL : ∀ (ind : Nat) (pre : List Char) (v : ConfigNode),
    hasLL pre = false → cleanStrs v = true →
    hasLL (serEntryVal ind pre v) = false ∧
    lastIsLB (serEntryVal ind pre v) = false
  | ind, pre, .map (e :: es), hp, hv => by
      have hrec := serEntries_noLL (ind + 2) (e :: es) hv
      exact serNest_noLL pre ':' (by decide) _ hp hrec.1 hrec.2
  | ind, pre, .seq (x :: xs), hp, hv => by
      have hrec := serItems_noLL ind (x :: xs) hv
      exact serNest_noLL pre ':' (by decide) _ hp hrec.1 hrec.2
  | _, pre, .map [], hp, _ => serInline_noLL pre ':' (by decide) (.map []) hp rfl
  | _, pre, .seq [], hp, _ => serInline_noLL pre ':' (by decide) (.seq []) hp rfl
  | _, pre, .str s, hp, hv => serInline_noLL pre ':' (by decide) (.str s) hp hv
  | _, pre, .int i, hp, _ => serInline_noLL pre ':' (by decide) (.int i) hp rfl
  | _, pre, .bool b, hp, _ => serInline_noLL pre ':' (by decide) (.bool b) hp rfl
  | _, pre, .null, hp, _ => serInline_noLL pre ':' (by decide) .null hp rfl
/-- Rendered sequence elements of a clean tree contain no adjacent
opening braces and do not end in one. -/
theorem serItems_noLL : ∀ (ind : Nat) (xs : List ConfigNode),
    cleanItems xs = true →
    hasLL (serItems ind xs) = false ∧ lastIsLB (serItems ind xs) = false
  | _, [], _ => ⟨rfl, rfl⟩
  | ind, v :: rest, h => by
      simp only [cleanItems, Bool.and_eq_true] at h
      obtain ⟨hv, hr⟩ := h
      have h1 := serItemVal_noLL ind v hv
      have h2 := serItems_noLL ind rest hr
      exact ⟨noLL_append h1.1 h2.1 (Or.inl h1.2), lastIsLB_append2 h1.2 h2.2⟩
/-- A rendered sequence element of a clean tree contains no adjacent
opening braces and does not end in one. -/
theorem serItemVal_noLL : ∀ (ind : Nat) (v : ConfigNode),
    cleanStrs v = true →
    hasLL (serItemVal ind v) = false ∧ lastIsLB (serItemVal ind v) = false
  | ind, .map (e :: es), hv => by
      have hrec := serEntries_noLL (ind + 2) (e :: es) hv
      exact serNest_noLL (pad ind) '-' (by decide) _
        (hasLL_of_lbFree (pad_lbFree ind)) hrec.1 hrec.2
  | ind, .seq (x :: xs), hv => by
      have hrec := serItems_noLL (ind + 2) (x :: xs) hv
      exact serNest_noLL (pad ind) '-' (by decide) _
        (hasLL_of_lbFree (pad_lbFree ind)) hrec.1 hrec.2
  | ind, .map [], _ => serInline_noLL (pad ind) '-' (by decide) (.map [])
      (hasLL_of_lbFree (pad_lbFree ind)) rfl
  | ind, .seq [], _ => serInline_noLL (pad ind) '-' (by decide) (.seq [])
      (hasLL_of_lbFree (pad_lbFree ind)) rfl
  | ind, .str s, hv => serInline_noLL (pad ind) '-' (by decide) (.str s)
      (hasLL_of_lbFree (pad_lbFree ind)) hv
  | ind, .int i, _ => serInline_noLL (pad ind) '-' (by decide) (.int i)
      (hasLL_of_lbFree (pad_lbFree ind)) rfl
  | ind, .bool b, _ => serInline_noLL (pad ind) '-' (by decide) (.bool b)
      (hasLL_of_lbFree (pad_lbFree ind)) rfl
  | ind, .null, _ => serInline_noLL (pad ind) '-' (by decide) .null
      (hasLL_of_lbFree (pad_lbFree ind)) rfl
end

theorem inlineNL_noLL (v : ConfigNode) (hv : cleanStrs v = true) :
    hasLL (inlineChars v ++ ['\n']) = false ∧
    lastIsLB (inlineChars v ++ ['\n']) = false :=
  ⟨noLL_append (inline_noLL v hv) rfl (Or.inr (by decide)),
   by rw [lastIsLB_append _ (by simp)]; decide⟩

/-- The serialized text of a clean tree contains no adjacent opening
braces and does not end in one. -/
theorem yaml_dump_noLL (t : ConfigNode) (h : cleanStrs t = true) :
    hasLL (yaml_dump t) = false ∧ lastIsLB (yaml_dump t) = false := by
  rw [yaml_dump.eq_def]
  cases t with
  | str s => exact inlineNL_noLL (.str s) h
  | int i => exact inlineNL_noLL (.int i) rfl
  | bool b => exact inlineNL_noLL (.bool b) rfl
  | null => exact inlineNL_noLL .null rfl
  | map es =>
      cases es with
      | nil => exact ⟨by decide, by decide⟩
      | cons e es' =>
          show hasLL (serEntries 0 (e :: es')) = false ∧
            lastIsLB (serEntries 0 (e :: es')) = false
          exact serEntries_noLL 0 (e :: es') h
  | seq xs =>
      cases xs with
      | nil => exact ⟨by decide, by decide⟩
      | cons x xs' =>
          show hasLL (serItems 0 (x :: xs')) = false ∧
            lastIsLB (serItems 0 (x :: xs')) = false
          exact serItems_noLL 0 (x :: xs') h

/-! ### Texts without adjacent opening braces contain no match -/

theorem prefix4 {p0 p1 p2 p3 : Char} : ∀ {s : List Char},
    List.isPrefixOf [p0, p1, p2, p3] s = true →
    ∃ t, s = p0 :: p1 :: p2 :: p3 :: t
  | [], h => by simp [List.isPrefixOf] at h
  | [_], h => by simp [List.isPrefixOf] at h
  | [_, _], h => by simp [List.isPrefixOf] at h
  | [_, _, _], h => by simp [List.isPrefixOf] at h
  | a :: b :: c :: d :: t, h => by
      simp only [List.isPrefixOf, Bool.and_eq_true, beq_iff_eq, Bool.and_true] at h
      obtain ⟨h0, h1, h2, h3⟩ := h
      exact ⟨t, by rw [h0, h1, h2, h3]⟩

/-- A text with no adjacent opening braces contains no occurrence of
the match opener `'{{ `. -/
theorem findSub_opener_none : ∀ {s : List Char}, hasLL s = false →
    findSub openerPat s = none := by
  intro s
  induction s with
  | nil => intro _; rfl
  | cons c rest ih =>
      intro h
      have hr : hasLL rest = false := by
        rw [hasLL_cons] at h
        exact (Bool.or_eq_false_iff.mp h).2
      have hpre : openerPat.isPrefixOf (c :: rest) = false := by
        by_contra hx
        rw [Bool.not_eq_false] at hx
        obtain ⟨t, ht⟩ := prefix4
          (show List.isPrefixOf ['\'', '\x7b', '\x7b', ' '] (c :: rest) = true from hx)
        injection ht with hc hrest
        have hL : hasLL rest = true := by rw [hrest]; simp [hasLL]
        rw [hr] at hL
        exact Bool.noConfusion hL
      simp [findSub, hpre, ih hr]

/-- `split` on a text with no adjacent opening braces finds no match
and returns the whole text as the single literal part. -/
theorem split_no_opener {text : List Char} (h : hasLL text = false) :
    split text = .ok [.lit text] := by
  rw [split]
  simp [splitGo, findSub_opener_none h]

/-! ### Claim C4 — expression-free trees -/

mutual
/-- The tree triggers neither of `transform`'s rewriting branches
anywhere: no mapping with both a `Stack` and an `Output` entry, and no
single-entry mapping whose key is an AWS function name. -/
def exprFree : ConfigNode → Bool
  | .map es =>
      !(hasKey "Stack" es && hasKey "Output" es) &&
      (match es with
       | [(k, _)] => !is_aws_fn k
       | _ => true) &&
      exprFreeEntries es
  | .seq xs => exprFreeItems xs
  | .str _ => true
  | .int _ => true
  | .bool _ => true
  | .null => true
def exprFreeEntries : List (String × ConfigNode) → Bool
  | [] => true
  | (_, v) :: rest => exprFree v && exprFreeEntries rest
def exprFreeItems : List ConfigNode → Bool
  | [] => true
  | v :: rest => exprFree v && exprFreeItems rest
end

mutual
/-- `transform` is the identity on expression-free trees. -/
theorem transform_exprFree (ε : Type) (r : Resolver ε) (region : String) :
    ∀ v : ConfigNode, exprFree v = true → transform r region v = .ok v
  | .map es, h => by
      have h' := h
      simp only [exprFree, Bool.and_eq_true, Bool.not_eq_true'] at h'
      obtain ⟨⟨hso, hm⟩, he⟩ := h'
      rw [transform.eq_def]
      simp only []
      rw [if_neg (by simp [hso])]
      cases es with
      | nil => rfl
      | cons p rest =>
          obtain ⟨k, v⟩ := p
          simp only []
          have hrec := transformEntries_exprFree ε r region ((k, v) :: rest) he
          cases rest with
          | nil =>
              have hk : is_aws_fn k = false := by simpa using hm
              rw [if_neg (by simp [hk])]
              rw [hrec]
              rfl
          | cons q rs =>
              rw [if_neg (by simp [List.isEmpty])]
              rw [hrec]
              rfl
  | .seq xs, h => by
      have hrec := transformItems_exprFree ε r region xs h
      show ConfigNode.seq <$> transformItems r region xs = .ok (.seq xs)
      rw [hrec]
      rfl
  | .str s, _ => rfl
  | .int i, _ => rfl
  | .bool b, _ => rfl
  | .null, _ => rfl
/-- `transform` rebuilds expression-free mapping entries unchanged. -/
theorem transformEntries_exprFree (ε : Type) (r : Resolver ε) (region : String) :
    ∀ es : List (String × ConfigNode), exprFreeEntries es = true →
      transformEntries r region es = .ok es
  | [], _ => rfl
  | (k, v) :: rest, h => by
      simp only [exprFreeEntries, Bool.and_eq_true] at h
      obtain ⟨hv, hr⟩ := h
      rw [transformEntries]
      rw [transform_exprFree ε r region v hv,
        transformEntries_exprFree ε r region rest hr]
      rfl
/-- `transform` rebuilds expression-free sequence elements unchanged. -/
theorem transformItems_exprFree (ε : Type) (r : Resolver ε) (region : String) :
    ∀ xs : List ConfigNode, exprFreeItems xs = true →
      transformItems r region xs = .ok xs
  | [], _ => rfl
  | v :: rest, h => by
      simp only [exprFreeItems, Bool.and_eq_true] at h
      obtain ⟨hv, hr⟩ := h
      rw [transformItems]
      rw [transform_exprFree ε r region v hv,
        transformItems_exprFree ε r region rest hr]
      rfl
end

/-- Claim C4 (amended): for every expression-free tree whose strings
and keys never contain adjacent opening braces, `transform` is the
identity, the serialized text contains no match, and the pipeline
returns the single literal string `header ++ yaml_dump t` (not a join
expression).  Without the adjacent-brace proviso the claim is false:
see the counterexample below. -/
theorem generate_user_data_identity {ε : Type} (r : Resolver ε)
    (region : String) (t : ConfigNode) (hf : exprFree t = true)
    (hc : cleanStrs t = true) :
    generate_user_data r region t = .ok (.plain (header ++ yaml_dump t)) := by
  have hy := yaml_dump_noLL t hc
  have hh : hasLL (header ++ yaml_dump t) = false :=
    noLL_append (by decide) hy.1 (Or.inl (by decide))
  rw [generate_user_data]
  rw [transform_exprFree ε r region t hf]
  simp only []
  rw [split_no_opener hh]

/-- Witness for the amended C4 at a one-entry mapping. -/
theorem generate_user_data_identity_witness :
    exprFree (ConfigNode.map [("a", ConfigNode.str "x")]) = true ∧
    cleanStrs (ConfigNode.map [("a", ConfigNode.str "x")]) = true ∧
    generate_user_data (fun _ _ => Except.error () : Resolver Unit) "eu-west-1"
        (ConfigNode.map [("a", ConfigNode.str "x")]) =
      .ok (.plain (header ++ yaml_dump (ConfigNode.map [("a", ConfigNode.str "x")]))) :=
  ⟨by decide, by decide,
   generate_user_data_identity (fun _ _ => Except.error ()) "eu-west-1" _
     (by decide) (by decide)⟩

/-- Counterexample to C4 as stated: a tree with no deferred-expression
and no lookup node anywhere, whose plain scalar string happens to read
like a placeholder, is quoted by the serializer, matched by the
splitter, and returned as a join expression — not as the single
literal string. -/
theorem identity_counterexample :
    exprFree (ConfigNode.map [("a", ConfigNode.str "\x7b\x7b 5 \x7d\x7d")]) = true ∧
    generate_user_data (fun _ _ => Except.error () : Resolver Unit) "eu-west-1"
        (ConfigNode.map [("a", ConfigNode.str "\x7b\x7b 5 \x7d\x7d")]) =
      .ok (.fnJoin [.lit (header ++ "a: ".data), .expr (.int 5),
        .lit "\n".data]) := by
  constructor
  · decide
  · decide

/-! ### Locating the match of a genuine placeholder -/

/-- The text contains no apostrophe. -/
def noApos (s : List Char) : Bool := s.all (fun c => !(c == '\''))

theorem noApos_append (a b : List Char) :
    noApos (a ++ b) = (noApos a && noApos b) := by
  simp [noApos, List.all_append]

/-- Single-quote-style body duplication is the identity on
apostrophe-free text. -/
theorem dupApos_id : ∀ {s : List Char}, noApos s = true → dupApos s = s
  | [], _ => rfl
  | c :: r, h => by
      simp only [noApos, List.all_cons, Bool.and_eq_true, Bool.not_eq_true',
        beq_eq_false_iff_ne, ne_eq] at h
      rw [dupApos, if_neg h.1, dupApos_id (show noApos r = true by simp [noApos, h.2])]

/-- The JSON text of a placeholder is apostrophe-free whenever the
encoded JSON is. -/
theorem noApos_placeholder {n : ConfigNode} (h : noApos (jdChars n) = true) :
    noApos (placeholderChars n) = true := by
  show noApos ('\x7b' :: '\x7b' :: ' ' :: (jdChars n ++ [' ', '\x7d', '\x7d'])) = true
  simp only [noApos, List.all_cons, List.all_append, Bool.and_eq_true]
  refine ⟨by decide, by decide, by decide, ?_, by decide⟩
  simpa [noApos] using h

/-- In a text with no adjacent opening braces followed by the opener
`'{{ `, the first opener occurrence is exactly at the junction. -/
theorem findSub_opener_pos : ∀ (A T : List Char), hasLL A = false →
    findSub openerPat (A ++ '\'' :: '\x7b' :: '\x7b' :: ' ' :: T) = some A.length
  | [], T, _ => by simp [findSub, openerPat, List.isPrefixOf]
  | c :: r, T, h => by
      have hr : hasLL r = false := by
        rw [hasLL_cons] at h
        exact (Bool.or_eq_false_iff.mp h).2
      have hpre : openerPat.isPrefixOf
          (c :: (r ++ '\'' :: '\x7b' :: '\x7b' :: ' ' :: T)) = false := by
        by_contra hx
        rw [Bool.not_eq_false] at hx
        obtain ⟨t, ht⟩ := prefix4
          (show List.isPrefixOf ['\'', '\x7b', '\x7b', ' '] _ = true from hx)
        injection ht with hc1 ht2
        match r, hr, ht2 with
        | [], _, ht2 =>
            injection ht2 with h1 _
            exact absurd h1 (by decide)
        | [a], _, ht2 =>
            injection ht2 with h1 ht3
            injection ht3 with h2 _
            exact absurd h2 (by decide)
        | a :: b :: r', hr2, ht2 =>
            injection ht2 with h1 ht3
            injection ht3 with h2 _
            have hL : hasLL (a :: b :: r') = true := by rw [h1, h2]; simp [hasLL]
            rw [hr2] at hL
            exact Bool.noConfusion hL
      rw [List.cons_append]
      simp [findSub, hpre, findSub_opener_pos r T hr]

/-- In `J ++ " }}'" ++ B` with apostrophe-free `J`, the first closer
occurrence is exactly at the junction. -/
theorem findSub_closer_pos (B : List Char) : ∀ (J : List Char),
    noApos J = true →
    findSub closerPat (J ++ ' ' :: '\x7d' :: '\x7d' :: '\'' :: B) = some J.length
  | [], _ => by simp [findSub, closerPat, List.isPrefixOf]
  | c :: r, h => by
      have hcr : noApos r = true := by
        simp only [noApos, List.all_cons, Bool.and_eq_true] at h
        simpa [noApos] using h.2
      have hpre : closerPat.isPrefixOf
          (c :: (r ++ ' ' :: '\x7d' :: '\x7d' :: '\'' :: B)) = false := by
        by_contra hx
        rw [Bool.not_eq_false] at hx
        obtain ⟨t, ht⟩ := prefix4
          (show List.isPrefixOf [' ', '\x7d', '\x7d', '\''] _ = true from hx)
        injection ht with hc1 ht2
        match r, hcr, ht2 with
        | [], _, ht2 =>
            injection ht2 with h1 _
            exact absurd h1 (by decide)
        | [a], _, ht2 =>
            injection ht2 with h1 ht3
            injection ht3 with h2 _
            exact absurd h2 (by decide)
        | [a, b], _, ht2 =>
            injection ht2 with h1 ht3
            injection ht3 with h2 ht4
            injection ht4 with h3 _
            exact absurd h3 (by decide)
        | a :: b :: d :: r', hr2, ht2 =>
            injection ht2 with h1 ht3
            injection ht3 with h2 ht4
            injection ht4 with h3 _
            have hd : ¬(d = '\'') := by
              simp only [noApos, List.all_cons, Bool.and_eq_true,
                Bool.not_eq_true', beq_eq_false_iff_ne, ne_eq] at hr2
              exact hr2.2.2.1
            exact hd h3
      rw [List.cons_append]
      simp [findSub, hpre, findSub_closer_pos B r hcr]

theorem splitGo_no_opener : ∀ (fuel : Nat) (text : List Char), 1 ≤ fuel →
    hasLL text = false → splitGo fuel text = .ok [.lit text]
  | 0, _, h, _ => absurd h (by decide)
  | f + 1, text, _, ht => by simp [splitGo, findSub_opener_none ht]

theorem drop_append4 (A R : List Char) (c1 c2 c3 c4 : Char) :
    (A ++ c1 :: c2 :: c3 :: c4 :: R).drop (A.length + 4) = R := by
  have h : A ++ c1 :: c2 :: c3 :: c4 :: R = (A ++ [c1, c2, c3, c4]) ++ R := by
    simp
  rw [h]
  have hlen : (A ++ [c1, c2, c3, c4]).length = A.length + 4 := by simp
  rw [← hlen, List.drop_left]

/-- One full step of the splitter at a well-formed quoted placeholder:
with no adjacent opening braces before the match or after it and an
apostrophe-free JSON group, the match is found exactly at the quoted
placeholder, the group decodes, and the surrounding texts become the
bounding literal parts. -/
theorem splitGo_one_match (f : Nat) (A J B : List Char) (v : ConfigNode)
    (hf : 1 ≤ f) (hA : hasLL A = false) (hJ : noApos J = true)
    (hB : hasLL B = false) (hok : jsonLoads J = .ok v) :
    splitGo (f + 1)
        (A ++ '\'' :: '\x7b' :: '\x7b' :: ' ' :: (J ++ ' ' :: '\x7d' :: '\x7d' :: '\'' :: B)) =
      .ok [.lit A, .expr v, .lit B] := by
  have hrest := splitGo_no_opener f B hf hB
  simp only [splitGo]
  rw [findSub_opener_pos A _ hA]
  simp only []
  rw [drop_append4]
  rw [findSub_closer_pos B J hJ]
  simp only []
  rw [List.take_left, hok, drop_append4, hrest]
  simp only [Bind.bind, Except.bind]
  rw [List.take_left]

/-- `split` at a text holding exactly one well-formed quoted
placeholder. -/
theorem split_one_match (A J B : List Char) (v : ConfigNode)
    (hA : hasLL A = false) (hJ : noApos J = true) (hB : hasLL B = false)
    (hok : jsonLoads J = .ok v) :
    split (A ++ '\'' :: '\x7b' :: '\x7b' :: ' ' :: (J ++ ' ' :: '\x7d' :: '\x7d' :: '\'' :: B)) =
      .ok [.lit A, .expr v, .lit B] := by
  rw [split]
  have hlen : (A ++ '\'' :: '\x7b' :: '\x7b' :: ' ' :: (J ++ ' ' :: '\x7d' :: '\x7d' :: '\'' :: B)).length =
      (A.length + J.length + B.length + 7) + 1 := by
    simp
    omega
  rw [hlen]
  exact splitGo_one_match _ A J B v (by omega) hA hJ hB hok

/-- Every placeholder string starts with an opening brace, a YAML
indicator, so the serializer always quotes it. -/
theorem needsQuoteC_placeholder (n : ConfigNode) :
    needsQuoteC (placeholderChars n) = true := by
  show needsQuoteC ('\x7b' :: '\x7b' :: ' ' :: (jdChars n ++ [' ', '\x7d', '\x7d'])) = true
  simp [needsQuoteC, show leadInd '\x7b' = true from by decide]

/-- Claim C1 (amended): a placeholder produced by `transform`, once
quoted by the serializer, is matched by the splitter as a single
expression bounded by empty literals and its JSON group decodes back
to exactly the encoded node — provided the encoded JSON text contains
no apostrophe.  With an apostrophe the quote-style doubling corrupts
the group, and the malformed-JSON branch of `split` is reachable for
placeholder-shaped plain strings (see the counterexample). -/
theorem placeholder_quoted_roundtrip (n : ConfigNode)
    (h : noApos (jdChars n) = true) :
    split (yamlQuote (placeholderChars n)) = .ok [.lit [], .expr n, .lit []] := by
  rw [yamlQuote, dupApos_id (noApos_placeholder h)]
  have hshape : '\'' :: (placeholderChars n ++ ['\'']) =
      [] ++ '\'' :: '\x7b' :: '\x7b' :: ' ' ::
        (jdChars n ++ ' ' :: '\x7d' :: '\x7d' :: '\'' :: []) := by
    simp [placeholderChars]
  rw [hshape]
  exact split_one_match [] (jdChars n) [] n rfl h rfl (jsonLoads_jdChars n)

/-- Witness for the amended C1 at `{"Ref": "X"}`. -/
theorem placeholder_quoted_roundtrip_witness :
    noApos (jdChars (ConfigNode.map [("Ref", ConfigNode.str "X")])) = true ∧
    split (yamlQuote (placeholderChars (ConfigNode.map [("Ref", ConfigNode.str "X")]))) =
      .ok [.lit [], .expr (ConfigNode.map [("Ref", ConfigNode.str "X")]), .lit []] :=
  ⟨by decide, placeholder_quoted_roundtrip _ (by decide)⟩

/-- Counterexample to C1 as stated: the malformed-JSON branch of
`split` is reachable.  A plain scalar string shaped like a placeholder
— never encoded by `transform` — is quoted by the serializer, matched
by the splitter, and its group `x` fails to parse, so the pipeline
errors. -/
theorem malformed_json_reachable_counterexample :
    generate_user_data (fun _ _ => Except.error () : Resolver Unit) "eu-west-1"
        (ConfigNode.map [("a", ConfigNode.str "\x7b\x7b x \x7d\x7d")]) =
      .error (.badJson "unexpected character") := by decide

/-! ### Claim C7 — nested-expression opacity -/

mutual
/-- The tree contains a deferred-expression trigger somewhere: a
single-entry mapping whose key is an AWS function name. -/
def containsDeferred : ConfigNode → Bool
  | .map es =>
      (match es with
       | [(k, _)] => is_aws_fn k
       | _ => false) || containsDeferredEntries es
  | .seq xs => containsDeferredItems xs
  | .str _ => false
  | .int _ => false
  | .bool _ => false
  | .null => false
def containsDeferredEntries : List (String × ConfigNode) → Bool
  | [] => false
  | (_, v) :: rest => containsDeferred v || containsDeferredEntries rest
def containsDeferredItems : List ConfigNode → Bool
  | [] => false
  | v :: rest => containsDeferred v || containsDeferredItems rest
end

/-- An AWS function name is neither `Stack` nor `Output`. -/
theorem is_aws_fn_not_lookup {k : String} (h : is_aws_fn k = true) :
    (k == "Stack") = false ∧ (k == "Output") = false := by
  constructor
  · by_cases hx : k = "Stack"
    · subst hx; exact absurd h (by decide)
    · simp [hx]
  · by_cases hx : k = "Output"
    · subst hx; exact absurd h (by decide)
    · simp [hx]

/-- A single-entry mapping with an AWS function key becomes exactly one
placeholder: `transform` encodes the whole node — value included —
without recursing into it. -/
theorem transform_deferred {ε : Type} (r : Resolver ε) (region : String)
    (k : String) (w : ConfigNode) (hk : is_aws_fn k = true) :
    transform r region (ConfigNode.map [(k, w)]) =
      .ok (.str (String.mk (placeholderChars (ConfigNode.map [(k, w)])))) := by
  have h1 := (is_aws_fn_not_lookup hk).1
  have h2 := (is_aws_fn_not_lookup hk).2
  rw [transform.eq_def]
  simp only []
  rw [if_neg (by simp [hasKey, h1, h2])]
  rw [if_pos (by simp [hk, List.isEmpty])]

/-- Claim C7 (amended): a deferred-expression node whose value contains
another one as a descendant is encoded by `transform` as exactly one
placeholder, without recursion into its value; and — provided the
encoded JSON contains no apostrophe — after serialization and
splitting the whole outer node, inner node verbatim inside its value,
is the single expression element of the output, bounded by literals.
With an apostrophe inside, the quote-style doubling corrupts the
decoded value (see the counterexample). -/
theorem nested_expression_opacity {ε : Type} (r : Resolver ε) (region : String)
    (k : String) (w : ConfigNode) (hk : is_aws_fn k = true)
    (_hnest : containsDeferred w = true)
    (hap : noApos (jdChars (ConfigNode.map [(k, w)])) = true) :
    transform r region (ConfigNode.map [(k, w)]) =
      .ok (.str (String.mk (placeholderChars (ConfigNode.map [(k, w)])))) ∧
    generate_user_data r region
        (ConfigNode.map [("config", ConfigNode.map [(k, w)])]) =
      .ok (.fnJoin [.lit (header ++ "config: ".data),
        .expr (ConfigNode.map [(k, w)]), .lit ['\n']]) := by
  have htd := transform_deferred r region k w hk
  refine ⟨htd, ?_⟩
  have htr : transform r region
      (ConfigNode.map [("config", ConfigNode.map [(k, w)])]) =
      .ok (ConfigNode.map [("config",
        ConfigNode.str (String.mk (placeholderChars (ConfigNode.map [(k, w)]))))]) := by
    rw [transform.eq_def]
    simp only []
    have hc1 : (hasKey "Stack" [("config", ConfigNode.map [(k, w)])] &&
        hasKey "Output" [("config", ConfigNode.map [(k, w)])]) = false := rfl
    rw [if_neg (by simp [hc1])]
    have hc2 : is_aws_fn "config" = false := rfl
    rw [if_neg (by simp [hc2])]
    rw [transformEntries, htd, transformEntries]
    simp [Bind.bind, Except.bind, Except.map]
  have hq : needsQuoteC
      (String.mk (placeholderChars (ConfigNode.map [(k, w)]))).data = true :=
    needsQuoteC_placeholder _
  have hy : yaml_dump (ConfigNode.map [("config",
      ConfigNode.str (String.mk (placeholderChars (ConfigNode.map [(k, w)]))))]) =
      "config".data ++ ':' :: ' ' ::
        (('\'' :: (dupApos (placeholderChars (ConfigNode.map [(k, w)])) ++ ['\''])) ++ ['\n']) := by
    show ("config".data ++ ':' :: ' ' ::
        (inlineChars (ConfigNode.str (String.mk
          (placeholderChars (ConfigNode.map [(k, w)])))) ++ ['\n'])) ++ [] = _
    rw [List.append_nil]
    simp only [inlineChars]
    rw [if_pos hq, yamlQuote]
  have htext : header ++ yaml_dump (ConfigNode.map [("config",
      ConfigNode.str (String.mk (placeholderChars (ConfigNode.map [(k, w)]))))]) =
      (header ++ "config: ".data) ++ '\'' :: '\x7b' :: '\x7b' :: ' ' ::
        (jdChars (ConfigNode.map [(k, w)]) ++
          ' ' :: '\x7d' :: '\x7d' :: '\'' :: ['\n']) := by
    rw [hy, dupApos_id (noApos_placeholder hap)]
    show header ++ ("config".data ++ ':' :: ' ' ::
        (('\'' :: (('\x7b' :: '\x7b' :: ' ' ::
          (jdChars (ConfigNode.map [(k, w)]) ++ [' ', '\x7d', '\x7d'])) ++ ['\''])) ++ ['\n'])) =
      (header ++ ("config".data ++ [':', ' '])) ++ '\'' :: '\x7b' :: '\x7b' :: ' ' ::
        (jdChars (ConfigNode.map [(k, w)]) ++
          ' ' :: '\x7d' :: '\x7d' :: '\'' :: ['\n'])
    simp
  rw [generate_user_data, htr]
  simp only []
  rw [htext]
  rw [split_one_match (header ++ "config: ".data) (jdChars (ConfigNode.map [(k, w)]))
    ['\n'] (ConfigNode.map [(k, w)]) (by decide) hap (by decide)
    (jsonLoads_jdChars _)]

/-- Witness for the amended C7: an `Fn::Sub` node holding a nested
`Ref` node. -/
theorem nested_expression_opacity_witness :
    is_aws_fn "Fn::Sub" = true ∧
    containsDeferred (ConfigNode.seq [ConfigNode.str "its",
      ConfigNode.map [("Ref", ConfigNode.str "X")]]) = true ∧
    noApos (jdChars (ConfigNode.map [("Fn::Sub",
      ConfigNode.seq [ConfigNode.str "its",
        ConfigNode.map [("Ref", ConfigNode.str "X")]])])) = true ∧
    (transform (fun _ _ => Except.error () : Resolver Unit) "eu-west-1"
        (ConfigNode.map [("Fn::Sub", ConfigNode.seq [ConfigNode.str "its",
          ConfigNode.map [("Ref", ConfigNode.str "X")]])]) =
      .ok (.str (String.mk (placeholderChars (ConfigNode.map [("Fn::Sub",
        ConfigNode.seq [ConfigNode.str "its",
          ConfigNode.map [("Ref", ConfigNode.str "X")]])])))) ∧
    generate_user_data (fun _ _ => Except.error () : Resolver Unit) "eu-west-1"
        (ConfigNode.map [("config", ConfigNode.map [("Fn::Sub",
          ConfigNode.seq [ConfigNode.str "its",
            ConfigNode.map [("Ref", ConfigNode.str "X")]])])]) =
      .ok (.fnJoin [.lit (header ++ "config: ".data),
        .expr (ConfigNode.map [("Fn::Sub", ConfigNode.seq [ConfigNode.str "its",
          ConfigNode.map [("Ref", ConfigNode.str "X")]])]), .lit ['\n']])) :=
  ⟨by decide, by decide, by decide,
   nested_expression_opacity (fun _ _ => Except.error ()) "eu-west-1" "Fn::Sub"
     (ConfigNode.seq [ConfigNode.str "its",
       ConfigNode.map [("Ref", ConfigNode.str "X")]])
     (by decide) (by decide) (by decide)⟩

/-- Counterexample to C7 as stated: with an apostrophe in the nested
node, the inner node does not reappear verbatim — the serializer's
quote-style doubling leaks into the decoded value, which comes back
with the apostrophe doubled. -/
theorem nested_opacity_counterexample :
    generate_user_data (fun _ _ => Except.error () : Resolver Unit) "eu-west-1"
        (ConfigNode.map [("config", ConfigNode.map [("Fn::Sub",
          ConfigNode.map [("Ref",
            ConfigNode.str (String.mk ['i', 't', '\'', 's']))])])]) =
      .ok (.fnJoin [.lit (header ++ "config: ".data),
        .expr (ConfigNode.map [("Fn::Sub", ConfigNode.map [("Ref",
          ConfigNode.str (String.mk ['i', 't', '\'', '\'', 's']))])]),
        .lit ['\n']]) := by decide
